import Mathlib

/-!
Verification development for the KnowledgeDiscovery repository: a field-aware
inverted-index search engine over athlete records.  The Python modules
`build_index.py`, `search_engine.py` and `semantic_search_athletes.py` are
shallowly embedded below: Python dictionaries become insertion-ordered
association lists, floats become real numbers (rationals where only
comparisons matter, with explicit NaN/inf constructors where the code
distinguishes them), and fallible operations return `Except`/`Option`.
-/

namespace KD

/-! ## Association lists (the embedding of Python dictionaries)

A Python `dict` is modelled as a `List (κ × α)` in insertion order.
`alistSet` is `d[k] = v` (replace in place, else append), `alistModify`
mutates the value stored at an existing key in place, `alistBump` is
`d[k] += x` for a `defaultdict`-style accumulator, and `List.lookup`
plays the role of `d.get(k)`. -/

def alistSet {κ α : Type _} [BEq κ] (k : κ) (v : α) : List (κ × α) → List (κ × α)
  | [] => [(k, v)]
  | (k', v') :: rest => if k' == k then (k, v) :: rest else (k', v') :: alistSet k v rest

def alistModify {κ α : Type _} [BEq κ] (k : κ) (g : α → α) : List (κ × α) → List (κ × α)
  | [] => []
  | (k', v') :: rest => if k' == k then (k', g v') :: rest else (k', v') :: alistModify k g rest

def alistAdd {κ α : Type _} [BEq κ] [Add α] (k : κ) (x : α) : List (κ × α) → List (κ × α)
  | [] => [(k, x)]
  | (k', v') :: rest => if k' == k then (k', v' + x) :: rest else (k', v') :: alistAdd k x rest

/-! ## Character and string helpers -/

/-- The character class `[a-z0-9]` of the tokenizer's regular expression,
expressed on code points: 97-122 is `a`-`z` and 48-57 is `0`-`9`. -/
def isAlnumLower (c : Char) : Bool :=
  (97 ≤ c.toNat && c.toNat ≤ 122) || (48 ≤ c.toNat && c.toNat ≤ 57)

/-- Python's `str.lower()` applied characterwise. -/
def pyLower (cs : List Char) : List Char := cs.map Char.toLower

/-- The substitution `re.sub(r"[^a-z0-9\s]", " ", text)`: every character that is
neither lowercase alphanumeric nor whitespace becomes a space. -/
def reSubNonAlnum (cs : List Char) : List Char :=
  cs.map fun c => if isAlnumLower c || c.isWhitespace then c else ' '

/-- How a leading non-whitespace character `c` combines with the split `r` of
the remaining input `cs`: it either starts a fresh chunk or extends the first
chunk of `r`. -/
def splitWsPrepend (c : Char) : List (List Char) → List (List Char)
  | [] => [[c]]
  | t :: ts => (c :: t) :: ts

def splitWsConsAux (c : Char) (cs : List Char) (r : List (List Char)) : List (List Char) :=
  match cs with
  | [] => [[c]]
  | d :: _ => if d.isWhitespace then [c] :: r else splitWsPrepend c r

/-- Python's `str.split()` with no arguments: maximal runs of non-whitespace
characters, empty chunks dropped.  Written by structural recursion so that it
evaluates in the kernel. -/
def splitWs : List Char → List (List Char)
  | [] => []
  | c :: cs =>
    if c.isWhitespace then splitWs cs
    else splitWsConsAux c cs (splitWs cs)

/-! ## Joining tokens with spaces (Python `" ".join`) -/

def joinSp : List (List Char) → List Char
  | [] => []
  | [t] => t
  | t :: ts => t ++ ' ' :: joinSp ts

/-! ## The bracketed-list branch: a model of
`json.loads(text.replace(chr(39), chr(34)))` restricted to arrays of strings.
If the replaced text is a JSON array whose elements are all strings, the
elements are returned; in every other case (invalid JSON, a non-array, or an
array with a non-string element, where `" ".join(parsed)` raises `TypeError`)
the result is `none` and the original text is kept, exactly as the
`try/except: pass` in `simple_tokenize` does. -/

def pyReplaceChar (a b : Char) (cs : List Char) : List Char :=
  cs.map fun c => if c = a then b else c

/-- The four whitespace characters JSON permits between tokens. -/
def isJsonWs (c : Char) : Bool := c = ' ' || c = '\t' || c = '\n' || c = '\x0d'

def skipJsonWs (cs : List Char) : List Char := cs.dropWhile isJsonWs

def hexVal (c : Char) : Option Nat :=
  if 48 ≤ c.toNat ∧ c.toNat ≤ 57 then some (c.toNat - 48)
  else if 97 ≤ c.toNat ∧ c.toNat ≤ 102 then some (c.toNat - 87)
  else if 65 ≤ c.toNat ∧ c.toNat ≤ 70 then some (c.toNat - 55)
  else none

/-- Decodings of the single-character JSON escapes. -/
def jsonEscape (e : Char) : Option Char :=
  if e = '"' then some '"'
  else if e = '\\' then some '\\'
  else if e = '/' then some '/'
  else if e = 'b' then some '\x08'
  else if e = 'f' then some '\x0c'
  else if e = 'n' then some '\n'
  else if e = 'r' then some '\x0d'
  else if e = 't' then some '\t'
  else none

/-- Parse the body of a JSON string after its opening quote.  Astral-plane
characters written as surrogate-pair escapes decode per `\uXXXX` quad here;
every such character is replaced by whitespace in the tokenizer's scrub pass
either way, so this cannot change any token stream. -/
def parseJsonStr : List Char → Option (List Char × List Char)
  | [] => none
  | c :: rest =>
    if c = '"' then some ([], rest)
    else if c = '\\' then
      match rest with
      | [] => none
      | e :: rest' =>
        if e = 'u' then
          match rest' with
          | h1 :: h2 :: h3 :: h4 :: rest2 =>
            match hexVal h1, hexVal h2, hexVal h3, hexVal h4 with
            | some a, some b, some x, some d =>
              (parseJsonStr rest2).map fun p =>
                (Char.ofNat (((a * 16 + b) * 16 + x) * 16 + d) :: p.1, p.2)
            | _, _, _, _ => none
          | _ => none
        else
          match jsonEscape e with
          | some ec => (parseJsonStr rest').map fun p => (ec :: p.1, p.2)
          | none => none
    else if c.toNat < 32 then none
    else (parseJsonStr rest).map fun p => (c :: p.1, p.2)

/-- Parse the comma-separated string elements of a JSON array, consuming the
closing bracket.  `fuel` bounds the recursion by the input length. -/
def parseJsonItems (fuel : ℕ) (cs : List Char) : Option (List (List Char) × List Char) :=
  match fuel with
  | 0 => none
  | fuel + 1 =>
    match skipJsonWs cs with
    | '"' :: rest =>
      match parseJsonStr rest with
      | none => none
      | some (s, rest2) =>
        match skipJsonWs rest2 with
        | ',' :: rest3 =>
          match parseJsonItems fuel rest3 with
          | none => none
          | some (ss, rest4) => some (s :: ss, rest4)
        | ']' :: rest3 => some ([s], rest3)
        | _ => none
    | _ => none

def jsonLoadsStrList (cs : List Char) : Option (List (List Char)) :=
  match skipJsonWs cs with
  | '[' :: rest =>
    match skipJsonWs rest with
    | ']' :: rest2 => if skipJsonWs rest2 = [] then some [] else none
    | _ =>
      match parseJsonItems (cs.length + 1) rest with
      | some (ss, rest2) => if skipJsonWs rest2 = [] then some ss else none
      | none => none
  | _ => none

/-! ## The tokenizer `simple_tokenize` of `build_index.py` -/

/-- `simple_tokenize(text)`: the `text is None or str(text).lower() == "nan"`
guard (a `None` argument lies outside the `String` domain of this embedding,
and a float `NaN` cell renders as the string `nan`), the bracketed-list
branch on the original text, then lower-casing, scrubbing every character
outside `[a-z0-9]` and whitespace to a space, and whitespace splitting. -/
def simple_tokenize (text : String) : List String :=
  let cs := text.data
  if pyLower cs = "nan".data then []
  else
    let cs1 :=
      if cs.head? = some '[' ∧ cs.getLast? = some ']' then
        match jsonLoadsStrList (pyReplaceChar '\'' '"' cs) with
        | some items => joinSp items
        | none => cs
      else cs
    (splitWs (reSubNonAlnum (pyLower cs1))).map fun t => String.mk t

/-- The space-joined output, Python `" ".join(tokens)`. -/
def pyJoinSpace (ts : List String) : String :=
  String.mk (joinSp (ts.map String.data))

/-! ## Static field configuration of `build_index.py` -/

def FIELDS_TO_INDEX : List String :=
  ["player_name", "position_clean", "draft", "birth_city", "birth_country",
   "transactions_list", "college", "high_school"]

def FIELDS_NUMERIC : List String := ["age", "weight"]

def FIELDS_KEYWORD : List String := ["profile url"]

/-- `FIELD_BOOSTS`, the float boosts represented as rationals. -/
def FIELD_BOOSTS : List (String × ℚ) :=
  [("player_name", 3), ("position_clean", 2), ("draft", 3 / 2),
   ("birth_city", 1), ("birth_country", 1), ("transactions_list", 1),
   ("college", 1), ("high_school", 4 / 5)]

/-! ## TF, IDF and document norms (`tf_weight`, `compute_idf_and_norms`) -/

/-- `tf_weight(count) = 1.0 + math.log10(count) if count > 0 else 0.0`. -/
noncomputable def tf_weight (count : ℕ) : ℝ :=
  if 0 < count then 1.0 + Real.logb 10 count else 0.0

/-- The smoothed IDF value `log10((N + 1) / (df_term + 1)) + 1.0`. -/
noncomputable def idfValue (number_of_documents df_term : ℕ) : ℝ :=
  Real.logb 10 ((number_of_documents + 1 : ℝ) / (df_term + 1)) + 1.0

/-- `index["text"]`: text field → term → doc_id → in-field count. -/
abbrev Postings := List (Int × ℕ)

abbrev TermMap := List (String × Postings)

abbrev TextIndex := List (String × TermMap)

/-- First pass of `compute_idf_and_norms`: assign
`idf[field][term] = log10((N+1)/(df_term+1)) + 1.0` for every configured text
field, `df_term` being the size of the term's posting dict. -/
noncomputable def compute_idf (text : TextIndex) (number_of_documents : ℕ) :
    List (String × List (String × ℝ)) :=
  FIELDS_TO_INDEX.map fun field =>
    (field, ((text.lookup field).getD []).map fun p =>
      (p.1, idfValue number_of_documents p.2.length))

/-- Second pass of `compute_idf_and_norms`: the `defaultdict(float)` of summed
squared weights `(tf * idf * boost)^2` per document.  The `idf[field][term]`
dictionary access always succeeds because the first pass assigned exactly the
iterated keys; a missing entry is modelled as 0. -/
noncomputable def compute_doc_sq (text : TextIndex)
    (idf : List (String × List (String × ℝ))) : List (Int × ℝ) :=
  FIELDS_TO_INDEX.foldl (fun acc field =>
    let boost : ℝ := (((FIELD_BOOSTS.lookup field).getD 1 : ℚ) : ℝ)
    ((text.lookup field).getD []).foldl (fun acc p =>
      let idf_value : ℝ := (((idf.lookup field).getD []).lookup p.1).getD 0
      p.2.foldl (fun acc q =>
        let tf := tf_weight q.2
        let weight := tf * idf_value * boost
        alistAdd q.1 (weight * weight) acc) acc) acc) []

/-- `compute_idf_and_norms` from `build_index.py`: the IDF table over the
configured text fields, and the per-document Euclidean norms obtained as
square roots of the summed squared weights. -/
noncomputable def compute_idf_and_norms (text : TextIndex) (number_of_documents : ℕ) :
    List (String × List (String × ℝ)) × List (Int × ℝ) :=
  let idf := compute_idf text number_of_documents
  (idf, (compute_doc_sq text idf).map fun p => (p.1, Real.sqrt p.2))

/-- Look an IDF value up by field and term. -/
def idfFind (idf : List (String × List (String × ℝ))) (field term : String) : Option ℝ :=
  (idf.lookup field).bind fun m => m.lookup term

/-! ## Python float values and `float(str)` parsing

Python floats that reach comparisons and the numeric index are modelled
exactly where the code distinguishes NaN and infinities; finite values are
idealized as rationals. -/

inductive PyFloat where
  | finite (q : ℚ)
  | inf
  | ninf
  | nan
deriving DecidableEq

def PyFloat.isNan : PyFloat → Bool
  | .nan => true
  | _ => false

/-- IEEE `<` on Python floats: NaN compares false with everything. -/
def pyLt : PyFloat → PyFloat → Bool
  | .nan, _ => false
  | _, .nan => false
  | .ninf, .ninf => false
  | .ninf, _ => true
  | _, .ninf => false
  | .inf, _ => false
  | _, .inf => true
  | .finite a, .finite b => decide (a < b)

/-- IEEE `<=` on Python floats. -/
def pyLe : PyFloat → PyFloat → Bool
  | .nan, _ => false
  | _, .nan => false
  | .ninf, _ => true
  | _, .ninf => false
  | _, .inf => true
  | .inf, _ => false
  | .finite a, .finite b => decide (a ≤ b)

/-- `math.isclose(a, b, rel_tol=1e-4)`: equal values are close (NaN is never
equal to itself), remaining infinities are not close to anything, and finite
values compare by `|a-b| <= rel_tol * max(|a|, |b|)` (`abs_tol` is 0). -/
def pyIsClose (a b : PyFloat) : Bool :=
  if a = b then !a.isNan
  else
    match a, b with
    | .finite x, .finite y => decide (|x - y| ≤ 1 / 10000 * max |x| |y|)
    | _, _ => false

/-- Python `str.strip()` (both ends). -/
def stripWsBoth (cs : List Char) : List Char :=
  ((cs.dropWhile Char.isWhitespace).reverse.dropWhile Char.isWhitespace).reverse

/-- The tail of a digit run with PEP 515 underscores: further digits, with
single underscores allowed strictly between digits; anything else is left
unconsumed. -/
def digitTail : List Char → (List Char × List Char)
  | [] => ([], [])
  | c :: rest =>
    if c.isDigit then
      let (ds, r) := digitTail rest
      (c :: ds, r)
    else if c = '_' then
      match rest with
      | d :: rest2 =>
        if d.isDigit then
          let (ds, r) := digitTail rest2
          (d :: ds, r)
        else ([], c :: rest)
      | [] => ([], [c])
    else ([], c :: rest)

/-- An optional digit run: empty when the input does not start with a digit. -/
def parseOptDigitRun (cs : List Char) : (List Char × List Char) :=
  match cs with
  | c :: rest =>
    if c.isDigit then
      let (ds, r) := digitTail rest
      (c :: ds, r)
    else ([], cs)
  | [] => ([], [])

def digitsToNat (ds : List Char) : ℕ :=
  ds.foldl (fun n c => n * 10 + (c.toNat - 48)) 0

/-- The mantissa of a float literal: `digits [. [digits]]` or `. digits`,
requiring at least one digit overall.  Returned as the joined digit value
together with the number of fraction digits, so that the final rational is
assembled from integer arithmetic only. -/
def parseMantissa (cs : List Char) : Option ((ℕ × ℕ) × List Char) :=
  let (ip, r1) := parseOptDigitRun cs
  match r1 with
  | '.' :: r2 =>
    let (fp, r3) := parseOptDigitRun r2
    if ip = [] ∧ fp = [] then none
    else some ((digitsToNat (ip ++ fp), fp.length), r3)
  | _ =>
    if ip = [] then none
    else some ((digitsToNat ip, 0), r1)

/-- The value `±m * 10^ex2` as a rational built by `mkRat` from integer
arithmetic. -/
def ratDecimal (neg : Bool) (m : ℕ) (ex2 : ℤ) : ℚ :=
  let sm : ℤ := if neg then -(m : ℤ) else (m : ℤ)
  if 0 ≤ ex2 then mkRat (sm * (10 : ℤ) ^ ex2.toNat) 1
  else mkRat sm ((10 : ℕ) ^ (-ex2).toNat)

/-- An optional exponent `(e|E) [sign] digits`; committing once `e` is seen. -/
def parseExponent (cs : List Char) : Option (Int × List Char) :=
  match cs with
  | e :: r =>
    if e = 'e' ∨ e = 'E' then
      let signAndRest : (Bool × List Char) :=
        match r with
        | '+' :: rr => (false, rr)
        | '-' :: rr => (true, rr)
        | rr => (false, rr)
      let (ds, r2) := parseOptDigitRun signAndRest.2
      if ds = [] then none
      else some (if signAndRest.1 then -(digitsToNat ds : Int) else (digitsToNat ds : Int), r2)
    else some (0, cs)
  | [] => some (0, [])

/-- Python `float(s)`: strip whitespace, optional sign, the named constants
`inf`/`infinity`/`nan` case-insensitively, or a decimal literal with optional
exponent; `none` when the string is not a float literal (a raised
`ValueError`).  Non-ASCII decimal digits accepted by CPython are out of scope
of this embedding. -/
def pyFloatParse (s : String) : Option PyFloat :=
  let cs := stripWsBoth s.data
  let signAndRest : (Bool × List Char) :=
    match cs with
    | '+' :: r => (false, r)
    | '-' :: r => (true, r)
    | r => (false, r)
  let neg := signAndRest.1
  let body := signAndRest.2
  let low := pyLower body
  if low = "inf".data ∨ low = "infinity".data then some (if neg then .ninf else .inf)
  else if low = "nan".data then some .nan
  else
    match parseMantissa body with
    | none => none
    | some (mf, r1) =>
      match parseExponent r1 with
      | none => none
      | some (ex, r2) =>
        if r2 = [] then some (.finite (ratDecimal neg mf.1 (ex - (mf.2 : ℤ))))
        else none

/-! ## The index structure and `build_index` of `build_index.py` -/

abbrev Record := List (String × String)

structure Index where
  text : TextIndex
  numeric : List (String × List (Int × PyFloat))
  keyword : List (String × List (String × List Int))

/-- The empty index: one empty dict per configured field of each kind. -/
def init_index : Index :=
  { text := FIELDS_TO_INDEX.map fun f => (f, [])
    numeric := FIELDS_NUMERIC.map fun f => (f, [])
    keyword := FIELDS_KEYWORD.map fun f => (f, []) }

/-- `Counter(tokens)`: counts keyed in first-occurrence order. -/
def countTokens (tokens : List String) : List (String × ℕ) :=
  tokens.foldl (fun acc t => alistAdd t 1 acc) []

/-- `d[k].append(x)` on a `defaultdict(list)`. -/
def alistAppend {κ α : Type _} [BEq κ] (k : κ) (x : α) :
    List (κ × List α) → List (κ × List α)
  | [] => [(k, [x])]
  | (k', v') :: rest =>
    if k' == k then (k', v' ++ [x]) :: rest else (k', v') :: alistAppend k x rest

/-- One row's contribution to the text index:
`index["text"][field].setdefault(term, {})[doc_id] = count`. -/
def indexTextRow (doc_id : Int) (r : Record) (text : TextIndex) : TextIndex :=
  FIELDS_TO_INDEX.foldl (fun text field =>
    let tokens := simple_tokenize ((r.lookup field).getD "")
    if tokens = [] then text
    else
      (countTokens tokens).foldl (fun text tc =>
        alistModify field
          (fun m => alistSet tc.1 (alistSet doc_id tc.2 ((m.lookup tc.1).getD [])) m)
          text) text) text

/-- One numeric field of one row: `float(row.get(field))` inside
`try/except`, with NaN skipped.  A missing field is `float(None)`, a
`TypeError` the `except` clause also absorbs. -/
def numFieldStep (doc_id : Int) (r : Record)
    (numeric : List (String × List (Int × PyFloat))) (field : String) :
    List (String × List (Int × PyFloat)) :=
  match r.lookup field with
  | none => numeric
  | some s =>
    match pyFloatParse s with
    | none => numeric
    | some v =>
      if v.isNan then numeric
      else alistModify field (alistSet doc_id v) numeric

/-- One row's contribution to the numeric tables. -/
def indexNumericRow (doc_id : Int) (r : Record)
    (numeric : List (String × List (Int × PyFloat))) :
    List (String × List (Int × PyFloat)) :=
  FIELDS_NUMERIC.foldl (numFieldStep doc_id r) numeric

/-- The entry a row is specified to leave in a numeric table: the parsed
value when the cell is present, parses and is not NaN; nothing otherwise. -/
def numExpected (f : String) (r : Record) : Option PyFloat :=
  match r.lookup f with
  | none => none
  | some s =>
    match pyFloatParse s with
    | none => none
    | some v => if v.isNan then none else some v

/-- One row's contribution to the keyword tables: the stripped, lower-cased
exact value, appended to that value's posting list when nonempty. -/
def indexKeywordRow (doc_id : Int) (r : Record)
    (keyword : List (String × List (String × List Int))) :
    List (String × List (String × List Int)) :=
  FIELDS_KEYWORD.foldl (fun keyword field =>
    let value := String.mk (pyLower (stripWsBoth ((r.lookup field).getD "").data))
    if value = "" then keyword
    else alistModify field (alistAppend value doc_id) keyword) keyword

/-- One iteration of the `build_index` row loop: record the row as metadata
and index its text, numeric and keyword fields. -/
def buildStep (st : Index × List (Int × Record)) (ir : ℕ × Record) :
    Index × List (Int × Record) :=
  let doc_id : Int := ir.1
  let r := ir.2
  ({ text := indexTextRow doc_id r st.1.text
     numeric := indexNumericRow doc_id r st.1.numeric
     keyword := indexKeywordRow doc_id r st.1.keyword },
   st.2 ++ [(doc_id, r)])

/-- `build_index(df)`: iterate the rows in order with `doc_id` the row
ordinal; returns `(index, number_of_documents, doc_meta)`. -/
def build_index (rows : List Record) : Index × ℕ × List (Int × Record) :=
  let st := rows.enum.foldl buildStep (init_index, [])
  (st.1, rows.length, st.2)

/-! ## The ontology and `add_ontology_to_index` -/

/-- The ontology structure consumed read-only by the index builder and the
query expander: class and property labels (dict keys), RDFS labels (dict
values) and relationships (predicate → subject → objects). -/
structure Ontology where
  classes : List String
  properties : List String
  labels : List (String × String)
  relationships : List (String × List (String × List String))

def pyLowerStr (s : String) : String := String.mk (pyLower s.data)

/-- The terms inserted by `add_ontology_to_index`, in source order: lowered
class keys, lowered property keys, tokenized label values, then tokenized
relationship subjects and objects. -/
def ontologyInsertions (ontology : Ontology) : List String :=
  ontology.classes.map pyLowerStr ++
  ontology.properties.map pyLowerStr ++
  (ontology.labels.map Prod.snd).flatMap simple_tokenize ++
  ontology.relationships.flatMap fun rel =>
    rel.2.flatMap fun so => simple_tokenize so.1 ++ so.2.flatMap simple_tokenize

/-- `index["text"]["ontology"].setdefault(term, {})[-1] = 1`. -/
def insertOntologyTerm (t : String) (text : TextIndex) : TextIndex :=
  alistModify "ontology"
    (fun m => alistSet t (alistSet (-1 : Int) 1 ((m.lookup t).getD [])) m) text

/-- `add_ontology_to_index(index, ontology)`: ensure the synthetic `ontology`
text field exists, then write every derived term with count 1 against the
pseudo-document `-1`.  The `boost=2.0` parameter of the Python signature is
never used in the body and is omitted. -/
def add_ontology_to_index (index : Index) (ontology : Ontology) : Index :=
  let text :=
    if index.text.lookup "ontology" = none then index.text ++ [("ontology", [])]
    else index.text
  { index with
    text := (ontologyInsertions ontology).foldl (fun text t => insertOntologyTerm t text) text }

/-- Lines 192-197 of `build_index.py` (`main`): fold the ontology into the
index and increment the document count before computing IDF and norms. -/
def main_augment (index : Index) (number_of_documents : ℕ) (ontology : Ontology) :
    Index × ℕ :=
  (add_ontology_to_index index ontology, number_of_documents + 1)

/-! ## Query-time ontology expansion (`semantic_search_athletes.py`) -/

/-- Substring test on character lists (Python `needle in hay`). -/
def containsSub (needle : List Char) : List Char → Bool
  | [] => needle.isEmpty
  | c :: t => needle.isPrefixOf (c :: t) || containsSub needle t

/-- Python `needle in hay` on strings. -/
def pyInStr (needle hay : String) : Bool := containsSub needle.data hay.data

/-- Insertion into the Python-set model: an insertion-ordered list without
duplicates. -/
def listInsert (x : String) (l : List String) : List String :=
  if x ∈ l then l else l ++ [x]

/-- `expand_query_with_ontology(term)`: lower the term, scan every
relationship's subject/object strings for a case-insensitive substring match,
and accumulate the full subject and all objects of each matching pair. -/
def expand_query_with_ontology (ontology : Ontology) (term : String) : List String :=
  let term := pyLowerStr term
  ontology.relationships.foldl (fun expansions rel =>
    rel.2.foldl (fun expansions so =>
      if pyInStr term (pyLowerStr so.1) || so.2.any (fun o => pyInStr term (pyLowerStr o)) then
        so.2.foldl (fun acc o => listInsert o acc) (listInsert so.1 expansions)
      else expansions) expansions) []

/-! ## The search engine (`search_engine.py`)

The four pickled artifacts and the synonym configuration are state of the
`SearchEngine` class; `load_synonyms` (which parses an external JSON resource
that always yields some alias/synonym tables, falling back to an identity
alias map when the file is missing and never failing) is abstracted into the
`field_aliases`/`term_synonyms` parameters of `SearchEngine_init`. -/

structure QueryComponents where
  text_terms : List (String × List (String × ℕ))
  required_terms : List (String × List (List String))
  numeric_filters : List (String × String × PyFloat)
  keyword_filters : List (String × List String)
deriving DecidableEq

structure SearchResult where
  doc_id : Int
  tf_idf_score : ℝ
  cosine_score : ℝ

structure SearchEngine where
  index : Index
  idf : List (String × List (String × ℝ))
  doc_norms : List (Int × ℝ)
  doc_meta : List (Int × Record)
  field_aliases : List (String × String)
  term_synonyms : List (String × List String)
  numeric_max : List (String × PyFloat)

/-- The scan modes of a POSIX `shlex` tokenizer: outside quotes, inside
single quotes, inside double quotes. -/
inductive ShMode where
  | norm
  | single
  | double

/-- `shlex.split` (POSIX mode, whitespace split): whitespace separates
tokens, quotes group, a backslash escapes the next character outside quotes
and only `"` and `\` inside double quotes; an unclosed quote or trailing
escape raises `ValueError`. -/
def shlexGo : List Char → ShMode → Option (List Char) → Except String (List String)
  | [], .norm, none => .ok []
  | [], .norm, some t => .ok [String.mk t]
  | [], .single, _ => .error "No closing quotation"
  | [], .double, _ => .error "No closing quotation"
  | c :: rest, .norm, cur =>
    if c.isWhitespace then
      match cur with
      | none => shlexGo rest .norm none
      | some t =>
        match shlexGo rest .norm none with
        | .error m => .error m
        | .ok ts => .ok (String.mk t :: ts)
    else if c = '\'' then shlexGo rest .single (some (cur.getD []))
    else if c = '"' then shlexGo rest .double (some (cur.getD []))
    else if c = '\\' then
      match rest with
      | [] => .error "No escaped character"
      | e :: rest2 => shlexGo rest2 .norm (some (cur.getD [] ++ [e]))
    else shlexGo rest .norm (some (cur.getD [] ++ [c]))
  | c :: rest, .single, cur =>
    if c = '\'' then shlexGo rest .norm (some (cur.getD []))
    else shlexGo rest .single (some (cur.getD [] ++ [c]))
  | c :: rest, .double, cur =>
    if c = '"' then shlexGo rest .norm (some (cur.getD []))
    else if c = '\\' then
      match rest with
      | [] => .error "No closing quotation"
      | e :: rest2 =>
        if e = '"' ∨ e = '\\' then shlexGo rest2 .double (some (cur.getD [] ++ [e]))
        else shlexGo rest2 .double (some (cur.getD [] ++ ['\\', e]))
    else shlexGo rest .double (some (cur.getD [] ++ [c]))

def shlex_split (s : String) : Except String (List String) :=
  shlexGo s.data .norm none

def pyReplaceCharStr (a b : Char) (s : String) : String :=
  String.mk (pyReplaceChar a b s.data)

/-- `SearchEngine.normalise_field`: lower, strip, fold spaces to
underscores, resolve through the alias table; otherwise fold underscores
back to spaces and return that (each membership branch of the source returns
`field_space` unchanged). -/
def normalise_field (e : SearchEngine) (field : String) : String :=
  let field_norm := pyReplaceCharStr ' ' '_' (String.mk (stripWsBoth (pyLower field.data)))
  match e.field_aliases.lookup field_norm with
  | some canonical => canonical
  | none =>
    let field_space := pyReplaceCharStr '_' ' ' field_norm
    if field_space ∈ FIELDS_TO_INDEX then field_space
    else if field_space ∈ FIELDS_NUMERIC then field_space
    else if field_space ∈ FIELDS_KEYWORD then field_space
    else field_space

/-- `SearchEngine._expand_terms`: each query token followed by the tokens of
each of its synonyms. -/
def _expand_terms (e : SearchEngine) (raw : String) : List String :=
  (simple_tokenize raw).flatMap fun token =>
    token :: ((e.term_synonyms.lookup token).getD []).flatMap simple_tokenize

/-- Lexicographic comparison by code points, Python's string `<=`. -/
def lexLe : List Char → List Char → Bool
  | [], _ => true
  | _ :: _, [] => false
  | a :: as, b :: bs => if a = b then lexLe as bs else decide (a.toNat < b.toNat)

def insertStr (x : String) : List String → List String
  | [] => [x]
  | y :: ys => if lexLe x.data y.data then x :: y :: ys else y :: insertStr x ys

/-- Python `sorted` on a list of distinct strings. -/
def sortStrings (l : List String) : List String := l.foldr insertStr []

/-- `SearchEngine._filter_alternatives`: per token, the sorted set of the
token and its synonyms (tokenized when tokenizable, verbatim otherwise). -/
def _filter_alternatives (e : SearchEngine) (raw : String) : List (List String) :=
  (simple_tokenize raw).map fun token =>
    let options := listInsert token []
    let options := ((e.term_synonyms.lookup token).getD []).foldl (fun acc syn =>
      let tokenised := simple_tokenize syn
      if tokenised ≠ [] then tokenised.foldl (fun a t => listInsert t a) acc
      else listInsert syn acc) options
    sortStrings options

/-- `SearchEngine._parse_numeric_filter`: strip, take the first matching
comparator of `>=`, `<=`, `>`, `<`, `=` (default `=`), parse the remainder
as a float; a malformed literal raises `ValueError`. -/
def _parse_numeric_filter (value : String) : Except String (String × PyFloat) :=
  let cs := stripWsBoth value.data
  let cr : String × List Char :=
    if [ '>', '=' ].isPrefixOf cs then (">=", cs.drop 2)
    else if [ '<', '=' ].isPrefixOf cs then ("<=", cs.drop 2)
    else if [ '>' ].isPrefixOf cs then (">", cs.drop 1)
    else if [ '<' ].isPrefixOf cs then ("<", cs.drop 1)
    else if [ '=' ].isPrefixOf cs then ("=", cs.drop 1)
    else ("=", cs)
  match pyFloatParse (String.mk cr.2) with
  | some v => .ok (cr.1, v)
  | none => .error ("Cannot parse numeric filter value: " ++ String.mk cr.2)

/-- Split at the first occurrence of a character (`token.split(c, 1)`),
`none` when the character does not occur. -/
def splitAtChar (c : Char) : List Char → Option (List Char × List Char)
  | [] => none
  | d :: rest =>
    if d = c then some ([], rest)
    else (splitAtChar c rest).map fun p => (d :: p.1, p.2)

/-- `value_part.strip(chr(34) ++ chr(32))`. -/
def stripQuoteSpace (s : String) : String :=
  String.mk (((s.data.dropWhile fun c => c = '"' || c = ' ').reverse.dropWhile
    fun c => c = '"' || c = ' ').reverse)

/-- `defaultdict` access-and-mutate: apply `g` to the entry at `k`, creating
it from the default `d` first when absent. -/
def alistGetPut {κ α : Type _} [BEq κ] (k : κ) (d : α) (g : α → α) :
    List (κ × α) → List (κ × α)
  | [] => [(k, g d)]
  | (k', v') :: rest =>
    if k' == k then (k', g v') :: rest else (k', v') :: alistGetPut k d g rest

def emptyComponents : QueryComponents :=
  { text_terms := [], required_terms := [], numeric_filters := [], keyword_filters := [] }

/-- One token of the `parse_query` loop. -/
def parseQueryToken (e : SearchEngine) (st : QueryComponents × List String)
    (token : String) : Except String (QueryComponents × List String) :=
  let comps := st.1
  let general_terms := st.2
  match splitAtChar ':' token.data with
  | some fv =>
    let field_part := String.mk fv.1
    let value_part := String.mk fv.2
    let canonical_field := normalise_field e field_part
    if canonical_field ∈ FIELDS_NUMERIC then
      match _parse_numeric_filter value_part with
      | .error m => .error m
      | .ok cv =>
        .ok ({ comps with
               numeric_filters := comps.numeric_filters ++ [(canonical_field, cv.1, cv.2)] },
             general_terms)
    else if canonical_field ∈ FIELDS_KEYWORD then
      .ok ({ comps with
             keyword_filters := alistGetPut canonical_field []
               (fun l => l ++ [pyLowerStr (stripQuoteSpace value_part)])
               comps.keyword_filters },
           general_terms)
    else if canonical_field ∈ FIELDS_TO_INDEX then
      let values := _expand_terms e value_part
      .ok ({ comps with
             text_terms := alistGetPut canonical_field []
               (fun ctr => values.foldl (fun c t => alistAdd t 1 c) ctr) comps.text_terms,
             required_terms := alistGetPut canonical_field []
               (fun l => l ++ _filter_alternatives e value_part) comps.required_terms },
           general_terms)
    else .ok (comps, general_terms ++ [token])
  | none => .ok (comps, general_terms ++ [token])

/-- `SearchEngine.parse_query`: shlex-tokenize, route the colon tokens by
the canonical field kind, then distribute the synonym-expanded free text
into every configured text field. -/
def parse_query (e : SearchEngine) (query : String) : Except String QueryComponents :=
  match shlex_split query with
  | .error m => .error m
  | .ok tokens =>
    match tokens.foldlM (parseQueryToken e) (emptyComponents, []) with
    | .error m => .error m
    | .ok st =>
      let comps := st.1
      let general_terms := st.2
      if general_terms ≠ [] then
        let expanded := _expand_terms e (pyJoinSpace general_terms)
        .ok (expanded.foldl (fun comps term =>
          FIELDS_TO_INDEX.foldl (fun comps field =>
            { comps with
              text_terms := alistGetPut field [] (alistAdd term 1) comps.text_terms })
            comps) comps)
      else .ok comps

/-- `self.index["text"][field].get(term)`.  A built index always holds every
configured text field, so the `KeyError` of a missing field dictionary is
outside the model (an absent field reads as an empty dictionary). -/
def textGet (e : SearchEngine) (field term : String) : Option Postings :=
  ((e.index.text.lookup field).getD []).lookup term

/-- `self.idf[field].get(term)`, with the same remark as `textGet`. -/
def idfGet (e : SearchEngine) (field term : String) : Option ℝ :=
  ((e.idf.lookup field).getD []).lookup term

/-- One term of the score accumulation loop of `SearchEngine.search`: skip
when the posting dict is empty or missing or the IDF value is missing or
zero (`if not postings or not idf_value`), otherwise add the squared query
weight to the squared norm and the product of query and document weights to
every posted document's accumulator. -/
noncomputable def scoreTermStep (e : SearchEngine) (field : String) (boost : ℝ)
    (acc : List (Int × ℝ) × ℝ) (tc : String × ℕ) : List (Int × ℝ) × ℝ :=
  let postings := textGet e field tc.1
  let idf_value := idfGet e field tc.1
  if postings.getD [] = [] ∨ idf_value.getD 0 = 0 then acc
  else
    let ps := postings.getD []
    let iv := idf_value.getD 0
    let query_weight := tf_weight tc.2 * iv * boost
    (ps.foldl (fun scores dc =>
        alistAdd dc.1 (query_weight * (tf_weight dc.2 * iv * boost)) scores) acc.1,
     acc.2 + query_weight * query_weight)

/-- The score accumulation loop of `SearchEngine.search`: the insertion-order
dict of dot-product accumulators per doc id, and the query vector's squared
norm. -/
noncomputable def computeScores (e : SearchEngine) (comps : QueryComponents) :
    List (Int × ℝ) × ℝ :=
  comps.text_terms.foldl (fun acc ftc =>
    ftc.2.foldl (scoreTermStep e ftc.1 (((FIELD_BOOSTS.lookup ftc.1).getD 1 : ℚ) : ℝ)) acc)
    ([], 0)

/-- `query_norm = math.sqrt(query_norm_sq) if query_norm_sq else 0.0`. -/
noncomputable def queryNorm (e : SearchEngine) (comps : QueryComponents) : ℝ :=
  if (computeScores e comps).2 ≠ 0 then Real.sqrt (computeScores e comps).2 else 0

/-- `self.doc_meta[doc_id].get(field, "")` as a string.  A candidate id
always has metadata in a built engine; a missing row reads as empty. -/
def metaGetStr (e : SearchEngine) (doc_id : Int) (field : String) : String :=
  (((e.doc_meta.lookup doc_id).getD []).lookup field).getD ""

/-- `SearchEngine._passes_filters`: numeric comparator filters, exact
keyword filters, then the required AND-of-OR term groups, all as hard
gates. -/
def _passes_filters (e : SearchEngine) (doc_id : Int) (comps : QueryComponents) : Bool :=
  (comps.numeric_filters.all fun fcv =>
    match ((e.index.numeric.lookup fcv.1).getD []).lookup doc_id with
    | none => false
    | some doc_value =>
      if fcv.2.1 = ">=" then pyLe fcv.2.2 doc_value
      else if fcv.2.1 = "<=" then pyLe doc_value fcv.2.2
      else if fcv.2.1 = ">" then pyLt fcv.2.2 doc_value
      else if fcv.2.1 = "<" then pyLt doc_value fcv.2.2
      else if fcv.2.1 = "=" then pyIsClose doc_value fcv.2.2
      else true) &&
  (comps.keyword_filters.all fun fv =>
    fv.2.contains (pyLowerStr (String.mk (stripWsBoth (metaGetStr e doc_id fv.1).data)))) &&
  (comps.required_terms.all fun fg =>
    let postings_for_field := (e.index.text.lookup fg.1).getD []
    fg.2.all fun group =>
      group.any fun term =>
        match postings_for_field.lookup term with
        | none => false
        | some ps => (ps.lookup doc_id).isSome)

/-- The junk-free part of a Python float as a real number; the infinities
and NaN have no real counterpart and map to 0.  Only the secondary boost
ratio ever uses this embedding. -/
def pyToReal : PyFloat → ℝ
  | .finite q => (q : ℝ)
  | _ => 0

/-- `SearchEngine._apply_boost`. -/
noncomputable def _apply_boost (e : SearchEngine) (doc_id : Int) (field : String)
    (score : ℝ) (strength : ℝ) : ℝ :=
  let canonical_field := normalise_field e field
  if (e.index.numeric.lookup canonical_field).isNone then score
  else
    let max_value := (e.numeric_max.lookup canonical_field).getD (.finite 0)
    if pyLe max_value (.finite 0) then score
    else
      let doc_value :=
        (((e.index.numeric.lookup canonical_field).getD []).lookup doc_id).getD (.finite 0)
      score * (1 + strength * (pyToReal doc_value / pyToReal max_value))

/-- One scored candidate of the result loop of `SearchEngine.search`: drop
the document when `_passes_filters` rejects it or when its norm is missing
or `0.0` (`if not doc_norm: continue`, both values being falsy), otherwise
divide by `doc_norm * query_norm` and apply the optional secondary boost. -/
noncomputable def scoreEntry (e : SearchEngine) (comps : QueryComponents)
    (query_norm : ℝ) (boost_field : Option String) (boost_strength : ℝ)
    (ds : Int × ℝ) : Option SearchResult :=
  if _passes_filters e ds.1 comps then
    let doc_norm := (e.doc_norms.lookup ds.1).getD 0
    if doc_norm = 0 then none
    else
      let final_score := ds.2 / (doc_norm * query_norm)
      let final_score :=
        if (boost_field.getD "") ≠ "" then
          _apply_boost e ds.1 (boost_field.getD "") final_score boost_strength
        else final_score
      some { doc_id := ds.1, tf_idf_score := ds.2, cosine_score := final_score }
  else none

/-- The scoring body of `SearchEngine.search` after parsing: early return on
no scores or a zero query norm, then the per-candidate filtering and cosine
division of `scoreEntry`, the stable descending sort and the `top_k` cut. -/
noncomputable def searchScored (e : SearchEngine) (comps : QueryComponents) (top_k : ℕ)
    (boost_field : Option String) (boost_strength : ℝ) : List SearchResult :=
  let scores := (computeScores e comps).1
  if scores = [] then []
  else
    let query_norm := queryNorm e comps
    if query_norm = 0 then []
    else
      let results := scores.filterMap (scoreEntry e comps query_norm boost_field boost_strength)
      (results.mergeSort fun a b => decide (b.cosine_score ≤ a.cosine_score)).take top_k

/-- `SearchEngine.search`. -/
noncomputable def search (e : SearchEngine) (query : String) (top_k : ℕ)
    (boost_field : Option String) (boost_strength : ℝ) :
    Except String (List SearchResult) :=
  match parse_query e query with
  | .error m => .error m
  | .ok comps => .ok (searchScored e comps top_k boost_field boost_strength)

/-- `max(values.values()) if values else 0.0` per numeric field, Python
`max` folding with `>`. -/
def pyMaxList : List PyFloat → PyFloat
  | [] => .finite 0
  | v :: rest => rest.foldl (fun cur x => if pyLt cur x then x else cur) v

def compute_numeric_max (numeric : List (String × List (Int × PyFloat))) :
    List (String × PyFloat) :=
  numeric.map fun fv => (fv.1, if fv.2 ≠ [] then pyMaxList (fv.2.map Prod.snd) else .finite 0)

/-- The apostrophe, kept out of string literals. -/
def sq : String := String.singleton (Char.ofNat 39)

/-- The error message of `load_pickle` for a missing artifact. -/
def missingMsg (path : String) : String :=
  "Missing required data file: " ++ path ++ ". Run " ++ sq ++ "python build_index.py" ++
    sq ++ " first."

/-- `load_pickle`: the deserialized artifact when the file exists, otherwise
the `FileNotFoundError` naming the file and instructing a rebuild. -/
def load_pickle {α : Type _} (path : String) (content : Option α) : Except String α :=
  match content with
  | some a => .ok a
  | none => .error (missingMsg path)

/-- `SearchEngine.__init__`: load the four artifacts in order with
`load_pickle`, keep the synonym configuration, and precompute the numeric
maxima. -/
def SearchEngine_init (index_path idf_path norms_path meta_path : String)
    (indexContent : Option Index)
    (idfContent : Option (List (String × List (String × ℝ))))
    (normsContent : Option (List (Int × ℝ)))
    (metaContent : Option (List (Int × Record)))
    (field_aliases : List (String × String))
    (term_synonyms : List (String × List String)) : Except String SearchEngine :=
  match load_pickle index_path indexContent with
  | .error m => .error m
  | .ok index =>
    match load_pickle idf_path idfContent with
    | .error m => .error m
    | .ok idf =>
      match load_pickle norms_path normsContent with
      | .error m => .error m
      | .ok doc_norms =>
        match load_pickle meta_path metaContent with
        | .error m => .error m
        | .ok doc_meta =>
          .ok { index := index, idf := idf, doc_norms := doc_norms,
                doc_meta := doc_meta, field_aliases := field_aliases,
                term_synonyms := term_synonyms,
                numeric_max := compute_numeric_max index.numeric }

/-- Look a posting count up by field, term and document id. -/
def postingFind (text : TextIndex) (f t : String) (d : Int) : Option ℕ :=
  ((text.lookup f).bind fun m => m.lookup t).bind fun sub => sub.lookup d

/-- A one-class ontology used as concrete input in several statements. -/
def sampleOntology : Ontology :=
  { classes := ["Player"], properties := [], labels := [], relationships := [] }

/-- A genuinely built index: `build_index` on an empty table followed by
ontology augmentation, exactly as `main` composes them. -/
def builtIndexSample : Index :=
  add_ontology_to_index (build_index []).1 sampleOntology

/-- A small concrete engine: two documents that both play `pg`, with ages 35
and 25, unit norms, a unit IDF for the one indexed term, and no synonym
configuration. -/
noncomputable def sampleEngine : SearchEngine :=
  { index :=
      { text := [("player_name", []), ("position_clean", [("pg", [(0, 1), (1, 1)])]),
                 ("draft", []), ("birth_city", []), ("birth_country", []),
                 ("transactions_list", []), ("college", []), ("high_school", [])]
        numeric := [("age", [(0, .finite 35), (1, .finite 25)]), ("weight", [])]
        keyword := [("profile url", [])] }
    idf := [("position_clean", [("pg", 1)])]
    doc_norms := [(0, 1), (1, 1)]
    doc_meta := [(0, []), (1, [])]
    field_aliases := []
    term_synonyms := []
    numeric_max := [("age", .finite 35), ("weight", .finite 0)] }

/-- The parse of `age:>30 position:pg` against `sampleEngine`: an `age > 30`
numeric filter, and — because `position` resolves to no known field — the
whole token `position:pg` as free text, distributed over every configured
text field. -/
def sampleComponents : QueryComponents :=
  { text_terms :=
      [("player_name", [("position", 1), ("pg", 1)]),
       ("position_clean", [("position", 1), ("pg", 1)]),
       ("draft", [("position", 1), ("pg", 1)]),
       ("birth_city", [("position", 1), ("pg", 1)]),
       ("birth_country", [("position", 1), ("pg", 1)]),
       ("transactions_list", [("position", 1), ("pg", 1)]),
       ("college", [("position", 1), ("pg", 1)]),
       ("high_school", [("position", 1), ("pg", 1)])]
    required_terms := []
    numeric_filters := [("age", ">", .finite 30)]
    keyword_filters := [] }

/-- An engine with an entirely empty index. -/
noncomputable def sampleEngineEmpty : SearchEngine :=
  { index := init_index, idf := [], doc_norms := [], doc_meta := [],
    field_aliases := [], term_synonyms := [], numeric_max := [] }

/-! ## Theorems -/

theorem lookup_alistSet_self {κ α : Type _} [BEq κ] [LawfulBEq κ] (k : κ) (v : α)
    (l : List (κ × α)) : (alistSet k v l).lookup k = some v := by
  induction l with
  | nil => simp [alistSet, List.lookup]
  | cons p rest ih =>
    obtain ⟨k', v'⟩ := p
    by_cases h : k' = k
    · subst h; simp [alistSet, List.lookup]
    · have hb : (k' == k) = false := beq_eq_false_iff_ne.mpr h
      have hb2 : (k == k') = false := beq_eq_false_iff_ne.mpr fun hk => h hk.symm
      simp [alistSet, hb, List.lookup, hb2, ih]

theorem lookup_alistSet_ne {κ α : Type _} [BEq κ] [LawfulBEq κ] (k j : κ) (v : α)
    (l : List (κ × α)) (hne : j ≠ k) : (alistSet k v l).lookup j = l.lookup j := by
  have hj : (j == k) = false := beq_eq_false_iff_ne.mpr hne
  induction l with
  | nil => simp [alistSet, List.lookup, hj]
  | cons p rest ih =>
    obtain ⟨k', v'⟩ := p
    by_cases h : k' = k
    · subst h
      simp [alistSet, List.lookup, hj]
    · have hb : (k' == k) = false := beq_eq_false_iff_ne.mpr h
      rcases hjk : (j == k') with _ | _ <;>
        simp [alistSet, hb, List.lookup, hjk, ih]

theorem lookup_alistModify_ne {κ α : Type _} [BEq κ] [LawfulBEq κ] (k j : κ) (g : α → α)
    (l : List (κ × α)) (hne : j ≠ k) : (alistModify k g l).lookup j = l.lookup j := by
  have hj : (j == k) = false := beq_eq_false_iff_ne.mpr hne
  induction l with
  | nil => simp [alistModify]
  | cons p rest ih =>
    obtain ⟨k', v'⟩ := p
    by_cases h : k' = k
    · subst h
      simp [alistModify, List.lookup, hj]
    · have hb : (k' == k) = false := beq_eq_false_iff_ne.mpr h
      rcases hjk : (j == k') with _ | _ <;>
        simp [alistModify, hb, List.lookup, hjk, ih]

theorem alistSet_idem {κ α : Type _} [BEq κ] [LawfulBEq κ] (k : κ) (v : α)
    (l : List (κ × α)) : alistSet k v (alistSet k v l) = alistSet k v l := by
  induction l with
  | nil => simp [alistSet]
  | cons p rest ih =>
    obtain ⟨k', v'⟩ := p
    by_cases h : k' = k
    · subst h; simp [alistSet]
    · have hb : (k' == k) = false := beq_eq_false_iff_ne.mpr h
      simp [alistSet, hb, ih]

theorem isAlnumLower_toNat {c : Char} (h : isAlnumLower c = true) :
    (97 ≤ c.toNat ∧ c.toNat ≤ 122) ∨ (48 ≤ c.toNat ∧ c.toNat ≤ 57) := by
  simpa [isAlnumLower, Bool.or_eq_true, Bool.and_eq_true, decide_eq_true_eq] using h

theorem isAlnumLower_not_ws {c : Char} (h : isAlnumLower c = true) : c.isWhitespace = false := by
  have hn := isAlnumLower_toNat h
  rcases hws : c.isWhitespace with _ | _
  · rfl
  · exfalso
    simp only [Char.isWhitespace, Bool.or_eq_true, decide_eq_true_eq] at hws
    rcases hws with ((h1 | h1) | h1) | h1 <;> subst h1 <;> revert hn <;> decide

theorem isAlnumLower_toLower_fixed {c : Char} (h : isAlnumLower c = true) :
    c.toLower = c := by
  have hn := isAlnumLower_toNat h
  show (if c.toNat ≥ 65 ∧ c.toNat ≤ 90 then Char.ofNat (c.toNat + 32) else c) = c
  rw [if_neg (by omega)]

theorem splitWs_nil : splitWs [] = [] := rfl

theorem splitWs_cons (c : Char) (cs : List Char) :
    splitWs (c :: cs) =
      if c.isWhitespace then splitWs cs else splitWsConsAux c cs (splitWs cs) := rfl

theorem splitWsConsAux_nil (c : Char) (r : List (List Char)) :
    splitWsConsAux c [] r = [[c]] := rfl

theorem splitWsConsAux_cons (c d : Char) (ds : List Char) (r : List (List Char)) :
    splitWsConsAux c (d :: ds) r =
      if d.isWhitespace then [c] :: r else splitWsPrepend c r := rfl

theorem splitWsConsAux_cons_ws {d : Char} (h : d.isWhitespace = true)
    (c : Char) (ds : List Char) (r : List (List Char)) :
    splitWsConsAux c (d :: ds) r = [c] :: r := by
  rw [splitWsConsAux_cons, if_pos h]

theorem splitWsConsAux_cons_nil {d : Char} (h : d.isWhitespace = false)
    (c : Char) (ds : List Char) :
    splitWsConsAux c (d :: ds) [] = [[c]] := by
  rw [splitWsConsAux_cons, if_neg (by simp [h]), splitWsPrepend]

theorem splitWsConsAux_cons_cons {d : Char} (h : d.isWhitespace = false)
    (c : Char) (ds : List Char) (t : List Char) (ts : List (List Char)) :
    splitWsConsAux c (d :: ds) (t :: ts) = (c :: t) :: ts := by
  rw [splitWsConsAux_cons, if_neg (by simp [h]), splitWsPrepend]

/-- Every token produced by `splitWs` is nonempty, consists of characters of the
input, and contains no whitespace. -/
theorem splitWs_tokens (l : List Char) :
    ∀ t ∈ splitWs l, t ≠ [] ∧ ∀ c ∈ t, c ∈ l ∧ c.isWhitespace = false := by
  induction l with
  | nil => simp [splitWs_nil]
  | cons c cs ih =>
    intro t ht
    rw [splitWs_cons] at ht
    by_cases hws : c.isWhitespace
    · rw [if_pos hws] at ht
      obtain ⟨h1, h2⟩ := ih t ht
      exact ⟨h1, fun x hx => ⟨List.mem_cons_of_mem _ (h2 x hx).1, (h2 x hx).2⟩⟩
    · have hcb : c.isWhitespace = false := by
        rcases hb : c.isWhitespace with _ | _
        · rfl
        · exact absurd hb hws
      rw [if_neg hws] at ht
      have hself : t = [c] → t ≠ [] ∧ ∀ x ∈ t, x ∈ c :: cs ∧ x.isWhitespace = false := by
        rintro rfl
        refine ⟨by simp, ?_⟩
        intro x hx
        simp only [List.mem_singleton] at hx
        subst hx
        exact ⟨List.mem_cons_self _ _, hcb⟩
      match cs, ht, ih with
      | [], ht, _ =>
        rw [splitWsConsAux_nil] at ht
        simp only [List.mem_singleton] at ht
        exact hself ht
      | d :: ds, ht, ih =>
        by_cases hd : d.isWhitespace
        · rw [splitWsConsAux_cons_ws hd] at ht
          rcases List.mem_cons.mp ht with rfl | ht'
          · exact hself rfl
          · obtain ⟨h1, h2⟩ := ih t ht'
            exact ⟨h1, fun x hx => ⟨List.mem_cons_of_mem _ (h2 x hx).1, (h2 x hx).2⟩⟩
        · have hdb : d.isWhitespace = false := by
            rcases hb : d.isWhitespace with _ | _
            · rfl
            · exact absurd hb hd
          rcases hsp : splitWs (d :: ds) with _ | ⟨t0, ts0⟩
          · rw [hsp, splitWsConsAux_cons_nil hdb] at ht
            simp only [List.mem_singleton] at ht
            exact hself ht
          · rw [hsp, splitWsConsAux_cons_cons hdb] at ht
            rcases List.mem_cons.mp ht with rfl | ht'
            · have h0 := ih t0 (by rw [hsp]; exact List.mem_cons_self _ _)
              refine ⟨by simp, ?_⟩
              intro x hx
              rcases List.mem_cons.mp hx with rfl | hx'
              · exact ⟨List.mem_cons_self _ _, hcb⟩
              · obtain ⟨hmem, hws'⟩ := h0.2 x hx'
                exact ⟨List.mem_cons_of_mem _ hmem, hws'⟩
            · have h0 := ih t (by rw [hsp]; exact List.mem_cons_of_mem _ ht')
              exact ⟨h0.1, fun x hx => ⟨List.mem_cons_of_mem _ (h0.2 x hx).1, (h0.2 x hx).2⟩⟩

/-- A nonempty run of non-whitespace characters is one chunk. -/
theorem splitWs_single (t : List Char) (ht : t ≠ [])
    (hall : ∀ c ∈ t, c.isWhitespace = false) : splitWs t = [t] := by
  induction t with
  | nil => exact absurd rfl ht
  | cons c cs ih =>
    have hc : c.isWhitespace = false := hall c (List.mem_cons_self _ _)
    rw [splitWs_cons, if_neg (by simp [hc])]
    match cs, ih, hall with
    | [], _, _ => rw [splitWsConsAux_nil]
    | d :: ds, ih, hall =>
      have hd : d.isWhitespace = false :=
        hall d (List.mem_cons_of_mem _ (List.mem_cons_self _ _))
      rw [ih (by simp) (fun x hx => hall x (List.mem_cons_of_mem _ hx)),
        splitWsConsAux_cons_cons hd]

/-- Splitting a chunk, a separating space, and a remainder. -/
theorem splitWs_token_append (t : List Char) (ht : t ≠ [])
    (hall : ∀ c ∈ t, c.isWhitespace = false) (rest : List Char) :
    splitWs (t ++ ' ' :: rest) = t :: splitWs rest := by
  induction t with
  | nil => exact absurd rfl ht
  | cons c cs ih =>
    have hc : c.isWhitespace = false := hall c (List.mem_cons_self _ _)
    rw [List.cons_append, splitWs_cons, if_neg (by simp [hc])]
    match cs, ih, hall with
    | [], _, _ =>
      simp only [List.nil_append]
      rw [splitWsConsAux_cons_ws (by decide)]
      rw [splitWs_cons, if_pos (by decide)]
    | d :: ds, ih, hall =>
      have hd : d.isWhitespace = false :=
        hall d (List.mem_cons_of_mem _ (List.mem_cons_self _ _))
      rw [ih (by simp) (fun x hx => hall x (List.mem_cons_of_mem _ hx)),
        List.cons_append, splitWsConsAux_cons_cons hd]

theorem joinSp_cons_cons (t t2 : List Char) (ts : List (List Char)) :
    joinSp (t :: t2 :: ts) = t ++ ' ' :: joinSp (t2 :: ts) := rfl

theorem joinSp_chars (ds : List (List Char)) :
    ∀ c ∈ joinSp ds, (∃ t ∈ ds, c ∈ t) ∨ c = ' ' := by
  induction ds with
  | nil => simp [joinSp]
  | cons t ts ih =>
    intro c hc
    match ts, hc, ih with
    | [], hc, _ => exact Or.inl ⟨t, List.mem_cons_self _ _, hc⟩
    | t2 :: ts', hc, ih =>
      rw [joinSp_cons_cons] at hc
      rcases List.mem_append.mp hc with h1 | h1
      · exact Or.inl ⟨t, List.mem_cons_self _ _, h1⟩
      · rcases List.mem_cons.mp h1 with rfl | h2
        · exact Or.inr rfl
        · rcases ih c h2 with ⟨u, hu, hcu⟩ | h3
          · exact Or.inl ⟨u, List.mem_cons_of_mem _ hu, hcu⟩
          · exact Or.inr h3

theorem joinSp_head (c : Char) (t' : List Char) (ds : List (List Char)) :
    (joinSp ((c :: t') :: ds)).head? = some c := by
  match ds with
  | [] => rfl
  | t2 :: ts' => rw [joinSp_cons_cons, List.cons_append, List.head?_cons]

theorem splitWs_joinSp (ds : List (List Char))
    (h : ∀ t ∈ ds, t ≠ [] ∧ ∀ c ∈ t, c.isWhitespace = false) :
    splitWs (joinSp ds) = ds := by
  induction ds with
  | nil => rfl
  | cons t ts ih =>
    match ts, ih with
    | [], _ =>
      have h0 := h t (List.mem_cons_self _ _)
      exact splitWs_single t h0.1 h0.2
    | t2 :: ts', ih =>
      rw [joinSp_cons_cons]
      have h0 := h t (List.mem_cons_self _ _)
      rw [splitWs_token_append t h0.1 h0.2,
        ih (fun u hu => h u (List.mem_cons_of_mem _ hu))]

theorem joinSp_eq_nan (ds : List (List Char))
    (hj : joinSp ds = ['n', 'a', 'n']) : ds = [['n', 'a', 'n']] := by
  match ds, hj with
  | [], hj => exact absurd hj (by decide)
  | [t], hj => rw [show joinSp [t] = t from rfl] at hj; rw [hj]
  | t :: t2 :: ts, hj =>
    exfalso
    have hsp : ' ' ∈ joinSp (t :: t2 :: ts) := by
      rw [joinSp_cons_cons]
      exact List.mem_append_right _ (List.mem_cons_self _ _)
    rw [hj] at hsp
    exact absurd hsp (by decide)

/-! ## Identity of the cleaning passes on already-clean text -/

theorem pyLower_clean (l : List Char)
    (h : ∀ c ∈ l, isAlnumLower c = true ∨ c = ' ') : pyLower l = l := by
  induction l with
  | nil => rfl
  | cons c cs ih =>
    have hc : c.toLower = c := by
      rcases h c (List.mem_cons_self _ _) with h1 | rfl
      · exact isAlnumLower_toLower_fixed h1
      · rfl
    simp only [pyLower, List.map_cons, hc]
    have := ih (fun x hx => h x (List.mem_cons_of_mem _ hx))
    simp only [pyLower] at this
    rw [this]

theorem reSub_clean (l : List Char)
    (h : ∀ c ∈ l, isAlnumLower c = true ∨ c.isWhitespace = true) :
    reSubNonAlnum l = l := by
  induction l with
  | nil => rfl
  | cons c cs ih =>
    have hc : (isAlnumLower c || c.isWhitespace) = true := by
      rcases h c (List.mem_cons_self _ _) with h1 | h1 <;> simp [h1]
    simp only [reSubNonAlnum, List.map_cons, hc, if_pos]
    have := ih (fun x hx => h x (List.mem_cons_of_mem _ hx))
    simp only [reSubNonAlnum] at this
    rw [this]

theorem reSub_chars (l : List Char) :
    ∀ c ∈ reSubNonAlnum l, isAlnumLower c = true ∨ c.isWhitespace = true := by
  intro c hc
  obtain ⟨a, _, rfl⟩ := List.mem_map.mp hc
  by_cases h : (isAlnumLower a || a.isWhitespace) = true
  · rw [if_pos h]
    simpa [Bool.or_eq_true] using h
  · rw [if_neg h]
    exact Or.inr (by decide)

theorem simple_tokenize_plain (x : String) (h1 : pyLower x.data ≠ "nan".data)
    (h2 : ¬(x.data.head? = some '[' ∧ x.data.getLast? = some ']')) :
    simple_tokenize x =
      (splitWs (reSubNonAlnum (pyLower x.data))).map fun t => String.mk t := by
  simp only [simple_tokenize]
  rw [if_neg h1, if_neg h2]

/-- Every output token of the tokenizer is a nonempty string of characters in
`[a-z0-9]`, whichever branches were taken. -/
theorem simple_tokenize_tokens (x : String) :
    ∀ s ∈ simple_tokenize x, s.data ≠ [] ∧ ∀ c ∈ s.data, isAlnumLower c = true := by
  have core : ∀ C : List Char, ∀ s ∈ (splitWs (reSubNonAlnum (pyLower C))).map
      (fun t => String.mk t), s.data ≠ [] ∧ ∀ c ∈ s.data, isAlnumLower c = true := by
    intro C s hs
    obtain ⟨t, ht, rfl⟩ := List.mem_map.mp hs
    obtain ⟨h1, h2⟩ := splitWs_tokens _ t ht
    refine ⟨h1, ?_⟩
    intro c hc
    obtain ⟨hmem, hws⟩ := h2 c hc
    rcases reSub_chars _ c hmem with ha | ha
    · exact ha
    · rw [ha] at hws; cases hws
  simp only [simple_tokenize]
  by_cases h1 : pyLower x.data = "nan".data
  · rw [if_pos h1]; simp
  · rw [if_neg h1]
    exact core _

/-- C2, amended half: on every input whose token sequence is not exactly
`["nan"]`, tokenizing the space-joined token sequence reproduces it. -/
theorem C2_tokenize_idempotent (x : String) (h : simple_tokenize x ≠ ["nan"]) :
    simple_tokenize (pyJoinSpace (simple_tokenize x)) = simple_tokenize x := by
  have htok := simple_tokenize_tokens x
  set ts := simple_tokenize x with hts
  set ds := ts.map String.data with hds
  have hdt : ∀ t ∈ ds, t ≠ [] ∧ ∀ c ∈ t, isAlnumLower c = true := by
    intro t ht
    obtain ⟨s, hs, rfl⟩ := List.mem_map.mp ht
    exact htok s hs
  have hclean : ∀ c ∈ joinSp ds, isAlnumLower c = true ∨ c = ' ' := by
    intro c hc
    rcases joinSp_chars ds c hc with ⟨t, ht, hct⟩ | rfl
    · exact Or.inl ((hdt t ht).2 c hct)
    · exact Or.inr rfl
  have hydata : (pyJoinSpace ts).data = joinSp ds := rfl
  have hlower : pyLower (joinSp ds) = joinSp ds := pyLower_clean _ hclean
  have hnan : pyLower (pyJoinSpace ts).data ≠ "nan".data := by
    rw [hydata, hlower]
    intro hj
    have hnan3 : joinSp ds = ['n', 'a', 'n'] := hj
    have hsing := joinSp_eq_nan ds hnan3
    apply h
    match ts, hds, hsing with
    | [], hds, hsing => rw [hds] at hsing; cases hsing
    | [s], hds, hsing =>
      rw [hds] at hsing
      simp only [List.map_cons, List.map_nil, List.cons.injEq] at hsing
      have : s = "nan" := by
        apply String.ext
        rw [hsing.1]
      rw [this]
    | s :: s2 :: rest, hds, hsing =>
      rw [hds] at hsing
      simp at hsing
  have hbr : ¬((pyJoinSpace ts).data.head? = some '[' ∧
      (pyJoinSpace ts).data.getLast? = some ']') := by
    rintro ⟨hh, -⟩
    rw [hydata] at hh
    match ds, hdt, hh with
    | [], _, hh => cases hh
    | t :: rest, hdt, hh =>
      have h0 := hdt t (List.mem_cons_self _ _)
      match t, h0, hh with
      | [], h0, hh => exact h0.1 rfl
      | c :: t', h0, hh =>
        rw [joinSp_head] at hh
        have hc : isAlnumLower c = true := h0.2 c (List.mem_cons_self _ _)
        have : c = '[' := by injection hh
        rw [this] at hc
        exact absurd hc (by decide)
  rw [simple_tokenize_plain _ hnan hbr, hydata, hlower,
    reSub_clean _ (by
      intro c hc
      rcases hclean c hc with h1 | rfl
      · exact Or.inl h1
      · exact Or.inr rfl),
    splitWs_joinSp ds (by
      intro t ht
      refine ⟨(hdt t ht).1, ?_⟩
      intro c hc
      exact isAlnumLower_not_ws ((hdt t ht).2 c hc))]
  rw [hds, List.map_map]
  have : ∀ s ∈ ts, (String.mk ∘ String.data) s = id s := fun s _ => rfl
  rw [List.map_congr_left this, List.map_id]

/-- C2, counterexample: for the input `NAN.` the tokenizer produces `["nan"]`,
whose space-joined output `nan` hits the NaN guard of `simple_tokenize` and
re-tokenizes to `[]`, so tokenization is not idempotent on every string. -/
theorem C2_counterexample :
    simple_tokenize "NAN." = ["nan"] ∧
    simple_tokenize (pyJoinSpace (simple_tokenize "NAN.")) ≠ simple_tokenize "NAN." :=
  ⟨by decide, by decide⟩

/-- Witness instantiating `C2_tokenize_idempotent` at the concrete input
`LeBron James!`. -/
theorem C2_tokenize_idempotent_witness :
    simple_tokenize "LeBron James!" ≠ ["nan"] ∧
    simple_tokenize (pyJoinSpace (simple_tokenize "LeBron James!")) =
      simple_tokenize "LeBron James!" :=
  ⟨by decide, C2_tokenize_idempotent "LeBron James!" (by decide)⟩

/-! ## Lookup lemmas for association lists built by `map` -/

theorem lookup_mem {κ α : Type _} [BEq κ] [LawfulBEq κ] {l : List (κ × α)} {k : κ} {v : α}
    (h : l.lookup k = some v) : (k, v) ∈ l := by
  induction l with
  | nil => cases h
  | cons p rest ih =>
    obtain ⟨k', v'⟩ := p
    rcases hk : (k == k') with _ | _
    · simp only [List.lookup, hk] at h
      exact List.mem_cons_of_mem _ (ih h)
    · simp only [List.lookup, hk] at h
      have : k = k' := by simpa using hk
      subst this
      injection h with h
      subst h
      exact List.mem_cons_self _ _

theorem lookup_eq_none_of_forall_ne {κ α : Type _} [BEq κ] [LawfulBEq κ]
    {l : List (κ × α)} {k : κ} (h : ∀ p ∈ l, p.1 ≠ k) : l.lookup k = none := by
  induction l with
  | nil => rfl
  | cons p rest ih =>
    obtain ⟨k', v'⟩ := p
    have hne : k' ≠ k := h (k', v') (List.mem_cons_self _ _)
    have hk : (k == k') = false := beq_eq_false_iff_ne.mpr fun hx => hne hx.symm
    simp only [List.lookup, hk]
    exact ih fun q hq => h q (List.mem_cons_of_mem _ hq)

theorem lookup_map_key_self {κ β : Type _} [BEq κ] [LawfulBEq κ]
    (L : List κ) (g : κ → β) {f : κ} (hf : f ∈ L) :
    (L.map fun x => (x, g x)).lookup f = some (g f) := by
  induction L with
  | nil => cases hf
  | cons x xs ih =>
    by_cases hfx : f = x
    · subst hfx
      simp [List.lookup]
    · have hb : (f == x) = false := beq_eq_false_iff_ne.mpr hfx
      simp only [List.map_cons, List.lookup, hb]
      exact ih (by
        rcases List.mem_cons.mp hf with rfl | h2
        · exact absurd rfl hfx
        · exact h2)

theorem lookup_map_value {κ α β : Type _} [BEq κ] [LawfulBEq κ]
    (m : List (κ × α)) (g : α → β) (t : κ) :
    (m.map fun p => (p.1, g p.2)).lookup t = (m.lookup t).map g := by
  induction m with
  | nil => rfl
  | cons p rest ih =>
    obtain ⟨k', v'⟩ := p
    rcases hk : (t == k') with _ | _ <;>
      simp [List.lookup, hk, ih]

/-! ## C1: the IDF formula, positivity and monotonicity -/

theorem idfValue_pos {N df : ℕ} (h : df ≤ N) : 0 < idfValue N df := by
  have h1 : (0 : ℝ) < df + 1 := by positivity
  have h2 : (df + 1 : ℝ) ≤ N + 1 := by
    have : (df : ℝ) ≤ N := by exact_mod_cast h
    linarith
  have h3 : (1 : ℝ) ≤ (N + 1 : ℝ) / (df + 1) := (one_le_div h1).mpr h2
  have h4 : 0 ≤ Real.logb 10 ((N + 1 : ℝ) / (df + 1)) :=
    Real.logb_nonneg (by norm_num) h3
  unfold idfValue
  linarith

theorem idfValue_antitone (N : ℕ) {d1 d2 : ℕ} (h : d1 ≤ d2) :
    idfValue N d2 ≤ idfValue N d1 := by
  have h1 : (0 : ℝ) < d1 + 1 := by positivity
  have h2 : (0 : ℝ) < d2 + 1 := by positivity
  have hdiv : (N + 1 : ℝ) / (d2 + 1) ≤ (N + 1 : ℝ) / (d1 + 1) := by
    apply div_le_div_of_nonneg_left (by positivity) h1
    have : (d1 : ℝ) ≤ d2 := by exact_mod_cast h
    linarith
  have hpos : (0 : ℝ) < (N + 1 : ℝ) / (d2 + 1) := by positivity
  have := Real.logb_le_logb_of_le (b := 10) (by norm_num) hpos hdiv
  unfold idfValue
  linarith

/-- C1 (amended): for every configured text field (a member of
`FIELDS_TO_INDEX`) present in the index and every term of that field, the IDF
value computed by `compute_idf_and_norms` is exactly
`log10((N + 1) / (df_term + 1)) + 1.0` where `df_term` is the number of
distinct doc ids of the term's posting map; it is strictly positive (hence
finite, being a real number) whenever `df_term ≤ N`, and for fixed `N` it is
monotonically non-increasing in `df_term`.  The field `ontology` added by the
augmentation step is not a member of `FIELDS_TO_INDEX` and receives no IDF
value at all (see the counterexample). -/
theorem C1_idf_formula (text : TextIndex) (N : ℕ) (f t : String) (m : TermMap)
    (ps : Postings) (hf : f ∈ FIELDS_TO_INDEX) (hm : text.lookup f = some m)
    (ht : m.lookup t = some ps) (hnd : (ps.map Prod.fst).Nodup) :
    idfFind ((compute_idf_and_norms text N).1) f t = some (idfValue N ps.length) ∧
    (ps.map Prod.fst).dedup.length = ps.length ∧
    (ps.length ≤ N → 0 < idfValue N ps.length) ∧
    (∀ d1 d2 : ℕ, d1 ≤ d2 → idfValue N d2 ≤ idfValue N d1) := by
  refine ⟨?_, ?_, fun h => idfValue_pos h, fun d1 d2 h => idfValue_antitone N h⟩
  · show idfFind (compute_idf text N) f t = some (idfValue N ps.length)
    unfold idfFind compute_idf
    rw [lookup_map_key_self FIELDS_TO_INDEX _ hf]
    simp only [hm, Option.getD_some, Option.some_bind]
    rw [lookup_map_value m (fun ps => idfValue N ps.length) t, ht]
    rfl
  · rw [List.Nodup.dedup hnd, List.length_map]

/-- Witness instantiating `C1_idf_formula` on a one-field index with one term
whose posting map holds two documents, with `N = 3`. -/
theorem C1_idf_formula_witness :
    (("player_name" : String) ∈ FIELDS_TO_INDEX ∧
      ([("player_name", [("lebron", [((0 : Int), (1 : ℕ)), (1, 2)])])] : TextIndex).lookup
        "player_name" = some [("lebron", [(0, 1), (1, 2)])] ∧
      ([("lebron", [((0 : Int), (1 : ℕ)), (1, 2)])] : TermMap).lookup "lebron" =
        some [(0, 1), (1, 2)] ∧
      (([((0 : Int), (1 : ℕ)), (1, 2)] : Postings).map Prod.fst).Nodup) ∧
    (idfFind ((compute_idf_and_norms
        [("player_name", [("lebron", [((0 : Int), (1 : ℕ)), (1, 2)])])] 3).1)
        "player_name" "lebron" = some (idfValue 3 2) ∧
      (([((0 : Int), (1 : ℕ)), (1, 2)] : Postings).map Prod.fst).dedup.length = 2 ∧
      (2 ≤ 3 → 0 < idfValue 3 2) ∧
      (∀ d1 d2 : ℕ, d1 ≤ d2 → idfValue 3 d2 ≤ idfValue 3 d1)) :=
  ⟨⟨by decide, by decide, by decide, by decide⟩,
    C1_idf_formula [("player_name", [("lebron", [((0 : Int), (1 : ℕ)), (1, 2)])])] 3
      "player_name" "lebron" [("lebron", [((0 : Int), (1 : ℕ)), (1, 2)])]
      [((0 : Int), (1 : ℕ)), (1, 2)]
      (by decide) (by decide) (by decide) (by decide)⟩

/-! ## C8: nonnegative norms, no entry for documents without postings -/

theorem foldl_inv {A B : Type _} (inv : A → Prop) (op : A → B → A) (l : List B) (a : A)
    (h0 : inv a) (hstep : ∀ a2 x, x ∈ l → inv a2 → inv (op a2 x)) : inv (l.foldl op a) := by
  induction l generalizing a with
  | nil => exact h0
  | cons x xs ih =>
    exact ih (op a x) (hstep a x (List.mem_cons_self _ _) h0)
      (fun a2 y hy h => hstep a2 y (List.mem_cons_of_mem _ hy) h)

theorem mem_alistAdd {κ α : Type _} [BEq κ] [LawfulBEq κ] [Add α] (k : κ) (x : α)
    (l : List (κ × α)) : ∀ r ∈ alistAdd k x l, r.1 = k ∨ ∃ q ∈ l, q.1 = r.1 := by
  induction l with
  | nil =>
    intro r hr
    simp only [alistAdd, List.mem_singleton] at hr
    subst hr
    exact Or.inl rfl
  | cons p rest ih =>
    obtain ⟨k', v'⟩ := p
    intro r hr
    rcases hk : (k' == k) with _ | _
    · simp only [alistAdd, hk, if_false] at hr
      rcases List.mem_cons.mp hr with rfl | h2
      · exact Or.inr ⟨(k', v'), List.mem_cons_self _ _, rfl⟩
      · rcases ih r h2 with h3 | ⟨q, hq, hq2⟩
        · exact Or.inl h3
        · exact Or.inr ⟨q, List.mem_cons_of_mem _ hq, hq2⟩
    · simp only [alistAdd, hk, if_true] at hr
      rcases List.mem_cons.mp hr with rfl | h2
      · exact Or.inl (by simpa using hk)
      · exact Or.inr ⟨r, List.mem_cons_of_mem _ h2, rfl⟩

/-- Every key of the squared-weight accumulator originates in some posting of
the index. -/
theorem compute_doc_sq_keys (text : TextIndex) (idf : List (String × List (String × ℝ))) :
    ∀ p ∈ compute_doc_sq text idf,
      ∃ fm ∈ text, ∃ tp ∈ fm.2, ∃ pc ∈ tp.2, pc.1 = p.1 := by
  unfold compute_doc_sq
  refine foldl_inv
    (fun (acc : List (Int × ℝ)) => ∀ p ∈ acc, ∃ fm ∈ text, ∃ tp ∈ fm.2, ∃ pc ∈ tp.2, pc.1 = p.1)
    _ FIELDS_TO_INDEX [] (fun p hp => absurd hp (List.not_mem_nil p)) ?_
  intro acc field _ hacc
  rcases hlook : text.lookup field with _ | m
  · simpa [hlook] using hacc
  · simp only [hlook, Option.getD_some]
    refine foldl_inv
      (fun (acc : List (Int × ℝ)) => ∀ p ∈ acc, ∃ fm ∈ text, ∃ tp ∈ fm.2, ∃ pc ∈ tp.2, pc.1 = p.1)
      _ m acc hacc ?_
    intro acc2 p hp hacc2
    refine foldl_inv
      (fun (acc : List (Int × ℝ)) => ∀ p ∈ acc, ∃ fm ∈ text, ∃ tp ∈ fm.2, ∃ pc ∈ tp.2, pc.1 = p.1)
      _ p.2 acc2 hacc2 ?_
    intro acc3 q hq hacc3
    intro r hr
    rcases mem_alistAdd _ _ _ r hr with h1 | ⟨s, hs, hs2⟩
    · exact ⟨(field, m), lookup_mem hlook, p, hp, q, hq, h1.symm⟩
    · rw [← hs2]; exact hacc3 s hs

/-- C8: every value of the `doc_norms` mapping returned by
`compute_idf_and_norms` is nonnegative, and a document that appears in no text
posting of any field has no entry at all in `doc_norms`. -/
theorem C8_doc_norms (text : TextIndex) (N : ℕ) (d : Int)
    (habsent : ∀ fm ∈ text, ∀ tp ∈ fm.2, ∀ pc ∈ tp.2, pc.1 ≠ d) :
    (∀ p ∈ (compute_idf_and_norms text N).2, 0 ≤ p.2) ∧
    (compute_idf_and_norms text N).2.lookup d = none := by
  constructor
  · intro p hp
    obtain ⟨q, _, rfl⟩ := List.mem_map.mp hp
    exact Real.sqrt_nonneg _
  · apply lookup_eq_none_of_forall_ne
    intro p hp
    obtain ⟨q, hq, rfl⟩ := List.mem_map.mp hp
    obtain ⟨fm, hfm, tp, htp, pc, hpc, hpc2⟩ :=
      compute_doc_sq_keys text (compute_idf text N) q hq
    intro hcontra
    exact habsent fm hfm tp htp pc hpc (by rw [hpc2]; exact hcontra)

/-- Witness instantiating `C8_doc_norms` on a small index and a document id
(99) that occurs in no posting. -/
theorem C8_doc_norms_witness :
    (∀ fm ∈ ([("player_name", [("lebron", [((0 : Int), (1 : ℕ)), (1, 2)])])] : TextIndex),
      ∀ tp ∈ fm.2, ∀ pc ∈ tp.2, pc.1 ≠ (99 : Int)) ∧
    ((∀ p ∈ (compute_idf_and_norms
        [("player_name", [("lebron", [((0 : Int), (1 : ℕ)), (1, 2)])])] 3).2, 0 ≤ p.2) ∧
      (compute_idf_and_norms
        [("player_name", [("lebron", [((0 : Int), (1 : ℕ)), (1, 2)])])] 3).2.lookup 99 =
        none) :=
  ⟨by decide, C8_doc_norms _ 3 99 (by decide)⟩

/-! ## Further association-list lemmas -/

theorem lookup_alistModify_self {κ α : Type _} [BEq κ] [LawfulBEq κ] (k : κ) (g : α → α)
    (l : List (κ × α)) : (alistModify k g l).lookup k = (l.lookup k).map g := by
  induction l with
  | nil => rfl
  | cons p rest ih =>
    obtain ⟨k', v'⟩ := p
    by_cases h : k' = k
    · subst h; simp [alistModify, List.lookup]
    · have hb : (k' == k) = false := beq_eq_false_iff_ne.mpr h
      have hb2 : (k == k') = false := beq_eq_false_iff_ne.mpr fun hk => h hk.symm
      simp [alistModify, hb, List.lookup, hb2, ih]

theorem lookup_append_single_self {κ α : Type _} [BEq κ] [LawfulBEq κ]
    (l : List (κ × α)) (k : κ) (v : α) (h : l.lookup k = none) :
    (l ++ [(k, v)]).lookup k = some v := by
  induction l with
  | nil => simp [List.lookup]
  | cons p rest ih =>
    obtain ⟨k', v'⟩ := p
    rcases hk : (k == k') with _ | _
    · simp only [List.lookup, hk] at h
      simp only [List.cons_append, List.lookup, hk]
      exact ih h
    · simp only [List.lookup, hk] at h
      cases h

theorem lookup_append_single_ne {κ α : Type _} [BEq κ] [LawfulBEq κ]
    (l : List (κ × α)) (k : κ) (v : α) (j : κ) (hne : j ≠ k) :
    (l ++ [(k, v)]).lookup j = l.lookup j := by
  have hj : (j == k) = false := beq_eq_false_iff_ne.mpr hne
  induction l with
  | nil => simp [List.lookup, hj]
  | cons p rest ih =>
    obtain ⟨k', v'⟩ := p
    rcases hk : (j == k') with _ | _ <;>
      simp [List.lookup, hk, ih]

/-! ## C5: ontology augmentation -/

theorem insertOntologyTerm_lookup (t : String) (T : TextIndex) :
    (insertOntologyTerm t T).lookup "ontology" =
      (T.lookup "ontology").map
        (fun m => alistSet t (alistSet (-1 : Int) 1 ((m.lookup t).getD [])) m) :=
  lookup_alistModify_self _ _ _

theorem insertOntologyTerm_isSome (t' : String) (T : TextIndex)
    (h : (T.lookup "ontology").isSome) :
    ((insertOntologyTerm t' T).lookup "ontology").isSome := by
  obtain ⟨m, hm⟩ := Option.isSome_iff_exists.mp h
  rw [insertOntologyTerm_lookup, hm]
  rfl

theorem insertOntologyTerm_establish (t : String) (T : TextIndex)
    (h : (T.lookup "ontology").isSome) :
    ∃ m, (insertOntologyTerm t T).lookup "ontology" = some m ∧
      ∃ sub, m.lookup t = some sub ∧ sub.lookup (-1 : Int) = some 1 := by
  obtain ⟨m, hm⟩ := Option.isSome_iff_exists.mp h
  rw [insertOntologyTerm_lookup, hm]
  exact ⟨_, rfl, _, lookup_alistSet_self _ _ _, lookup_alistSet_self _ _ _⟩

theorem insertOntologyTerm_preserve (t t' : String) (T : TextIndex)
    (h : ∃ m, T.lookup "ontology" = some m ∧
      ∃ sub, m.lookup t = some sub ∧ sub.lookup (-1 : Int) = some 1) :
    ∃ m, (insertOntologyTerm t' T).lookup "ontology" = some m ∧
      ∃ sub, m.lookup t = some sub ∧ sub.lookup (-1 : Int) = some 1 := by
  obtain ⟨m, hm, sub, hsub, h1⟩ := h
  rw [insertOntologyTerm_lookup, hm]
  refine ⟨_, rfl, ?_⟩
  by_cases he : t' = t
  · subst he
    exact ⟨_, lookup_alistSet_self _ _ _, lookup_alistSet_self _ _ _⟩
  · rw [lookup_alistSet_ne _ _ _ _ fun hh => he hh.symm]
    exact ⟨sub, hsub, h1⟩

theorem ontology_fold_posting (l : List String) (T : TextIndex)
    (hT : (T.lookup "ontology").isSome) :
    ∀ t ∈ l,
      ∃ m, (l.foldl (fun text t => insertOntologyTerm t text) T).lookup "ontology" = some m ∧
        ∃ sub, m.lookup t = some sub ∧ sub.lookup (-1 : Int) = some 1 := by
  induction l generalizing T with
  | nil => intro t ht; cases ht
  | cons t0 ts ih =>
    intro t ht
    rw [List.foldl_cons]
    rcases List.mem_cons.mp ht with rfl | ht'
    · refine foldl_inv
        (fun (T2 : TextIndex) => ∃ m, T2.lookup "ontology" = some m ∧
          ∃ sub, m.lookup t = some sub ∧ sub.lookup (-1 : Int) = some 1)
        _ ts (insertOntologyTerm t T) (insertOntologyTerm_establish t T hT) ?_
      intro T2 t' _ hP
      exact insertOntologyTerm_preserve t t' T2 hP
    · exact ih (insertOntologyTerm t0 T) (insertOntologyTerm_isSome t0 T hT) t ht'

theorem add_ontology_text_eq (index : Index) (o : Ontology) :
    (add_ontology_to_index index o).text =
      (ontologyInsertions o).foldl (fun text t => insertOntologyTerm t text)
        (if index.text.lookup "ontology" = none then index.text ++ [("ontology", [])]
         else index.text) := rfl

theorem add_ontology_start_isSome (index : Index) :
    ((if index.text.lookup "ontology" = none then index.text ++ [("ontology", [])]
      else index.text).lookup "ontology").isSome := by
  by_cases h : index.text.lookup "ontology" = none
  · rw [if_pos h, lookup_append_single_self _ _ _ h]
    rfl
  · rw [if_neg h]
    exact Option.ne_none_iff_isSome.mp h

theorem add_ontology_posting (index : Index) (o : Ontology) :
    ∀ t ∈ ontologyInsertions o,
      postingFind (add_ontology_to_index index o).text "ontology" t (-1) = some 1 := by
  intro t ht
  obtain ⟨m, hm, sub, hsub, h1⟩ :=
    ontology_fold_posting (ontologyInsertions o) _ (add_ontology_start_isSome index) t ht
  unfold postingFind
  rw [add_ontology_text_eq, hm]
  simp only [Option.some_bind, hsub, h1]

theorem add_ontology_frame (index : Index) (o : Ontology) (f : String)
    (hf : f ≠ "ontology") :
    (add_ontology_to_index index o).text.lookup f = index.text.lookup f := by
  rw [add_ontology_text_eq]
  have base :
      (if index.text.lookup "ontology" = none then index.text ++ [("ontology", [])]
       else index.text).lookup f = index.text.lookup f := by
    by_cases h : index.text.lookup "ontology" = none
    · rw [if_pos h, lookup_append_single_ne _ _ _ _ hf]
    · rw [if_neg h]
  refine foldl_inv (fun (T2 : TextIndex) => T2.lookup f = index.text.lookup f) _
    (ontologyInsertions o) _ base ?_
  intro T2 t' _ h2
  unfold insertOntologyTerm
  rw [lookup_alistModify_ne _ _ _ _ hf, h2]

/-- C5: `add_ontology_to_index` followed by the `main` increment raises the
document count used for IDF by exactly one; every ontology-derived term is
written into the synthetic `ontology` text field with count exactly 1 against
pseudo-document `-1`; re-insertion leaves the count at 1 (never accumulated);
and every non-ontology text field, the numeric tables and the keyword tables
are left unchanged, so no existing document's posting counts change. -/
theorem C5_ontology_augmentation (index : Index) (N : ℕ) (o : Ontology) :
    (main_augment index N o).2 = N + 1 ∧
    (∀ t ∈ ontologyInsertions o,
      postingFind (add_ontology_to_index index o).text "ontology" t (-1) = some 1) ∧
    (∀ t ∈ ontologyInsertions o,
      postingFind (add_ontology_to_index (add_ontology_to_index index o) o).text
        "ontology" t (-1) = some 1) ∧
    (∀ f, f ≠ "ontology" →
      (add_ontology_to_index index o).text.lookup f = index.text.lookup f) ∧
    (add_ontology_to_index index o).numeric = index.numeric ∧
    (add_ontology_to_index index o).keyword = index.keyword :=
  ⟨rfl, add_ontology_posting index o,
    add_ontology_posting (add_ontology_to_index index o) o,
    fun f hf => add_ontology_frame index o f hf, rfl, rfl⟩

/-- Witness instantiating `C5_ontology_augmentation` on the index built from
an empty table and the one-class sample ontology. -/
theorem C5_ontology_augmentation_witness :
    ("player" ∈ ontologyInsertions sampleOntology) ∧
    postingFind (add_ontology_to_index (build_index []).1 sampleOntology).text
      "ontology" "player" (-1) = some 1 ∧
    (main_augment (build_index []).1 7 sampleOntology).2 = 8 :=
  ⟨by decide,
    (C5_ontology_augmentation (build_index []).1 7 sampleOntology).2.1 "player" (by decide),
    (C5_ontology_augmentation (build_index []).1 7 sampleOntology).1⟩

/-- C1, counterexample to the claim as stated: in the built (augmented) index
the text field `ontology` is present and holds the term `player` with a
nonempty posting map, yet `compute_idf_and_norms` assigns it no IDF value at
all, because only the members of `FIELDS_TO_INDEX` are iterated. -/
theorem C1_counterexample :
    builtIndexSample.text.lookup "ontology" = some [("player", [(-1, 1)])] ∧
    idfFind ((compute_idf_and_norms builtIndexSample.text 1).1) "ontology" "player" =
      none := by
  constructor
  · decide
  · have hnone : (compute_idf builtIndexSample.text 1).lookup "ontology" = none := by
      apply lookup_eq_none_of_forall_ne
      intro p hp
      unfold compute_idf at hp
      obtain ⟨x, hx, rfl⟩ := List.mem_map.mp hp
      intro hcontra
      have hx2 : x = "ontology" := hcontra
      rw [hx2] at hx
      exact absurd hx (by decide)
    show idfFind (compute_idf builtIndexSample.text 1) "ontology" "player" = none
    unfold idfFind
    rw [hnone]
    rfl

/-! ## C7: query-time ontology expansion -/

theorem mem_listInsert (x y : String) (l : List String) :
    x ∈ listInsert y l ↔ x = y ∨ x ∈ l := by
  unfold listInsert
  by_cases h : y ∈ l
  · rw [if_pos h]
    constructor
    · exact Or.inr
    · rintro (rfl | hx)
      exacts [h, hx]
  · rw [if_neg h]
    simp [List.mem_append, or_comm]

theorem mem_foldl_listInsert (l : List String) (a : List String) (x : String) :
    x ∈ l.foldl (fun acc o => listInsert o acc) a ↔ x ∈ a ∨ x ∈ l := by
  induction l generalizing a with
  | nil => simp
  | cons o os ih =>
    rw [List.foldl_cons, ih, mem_listInsert]
    constructor
    · rintro ((rfl | h) | h)
      · exact Or.inr (List.mem_cons_self _ _)
      · exact Or.inl h
      · exact Or.inr (List.mem_cons_of_mem _ h)
    · rintro (h | h)
      · exact Or.inl (Or.inr h)
      · rcases List.mem_cons.mp h with rfl | h2
        · exact Or.inl (Or.inl rfl)
        · exact Or.inr h2

theorem mem_expandPairs (term : String) (pairs : List (String × List String))
    (acc : List String) (x : String) :
    x ∈ pairs.foldl (fun expansions so =>
        if pyInStr term (pyLowerStr so.1) || so.2.any (fun o => pyInStr term (pyLowerStr o)) then
          so.2.foldl (fun acc o => listInsert o acc) (listInsert so.1 expansions)
        else expansions) acc ↔
      x ∈ acc ∨ ∃ so ∈ pairs,
        (pyInStr term (pyLowerStr so.1) ||
          so.2.any (fun o => pyInStr term (pyLowerStr o))) = true ∧
        (x = so.1 ∨ x ∈ so.2) := by
  induction pairs generalizing acc with
  | nil => simp
  | cons so os ih =>
    rw [List.foldl_cons]
    by_cases hc : (pyInStr term (pyLowerStr so.1) ||
        so.2.any (fun o => pyInStr term (pyLowerStr o))) = true
    · rw [if_pos hc, ih, mem_foldl_listInsert, mem_listInsert]
      constructor
      · rintro (((rfl | h) | h) | ⟨so2, hso2, h2, h3⟩)
        · exact Or.inr ⟨so, List.mem_cons_self _ _, hc, Or.inl rfl⟩
        · exact Or.inl h
        · exact Or.inr ⟨so, List.mem_cons_self _ _, hc, Or.inr h⟩
        · exact Or.inr ⟨so2, List.mem_cons_of_mem _ hso2, h2, h3⟩
      · rintro (h | ⟨so2, hso2, h2, h3⟩)
        · exact Or.inl (Or.inl (Or.inr h))
        · rcases List.mem_cons.mp hso2 with rfl | hso2'
          · rcases h3 with rfl | h3
            · exact Or.inl (Or.inl (Or.inl rfl))
            · exact Or.inl (Or.inr h3)
          · exact Or.inr ⟨so2, hso2', h2, h3⟩
    · rw [if_neg hc, ih]
      constructor
      · rintro (h | ⟨so2, hso2, h2, h3⟩)
        · exact Or.inl h
        · exact Or.inr ⟨so2, List.mem_cons_of_mem _ hso2, h2, h3⟩
      · rintro (h | ⟨so2, hso2, h2, h3⟩)
        · exact Or.inl h
        · rcases List.mem_cons.mp hso2 with rfl | hso2'
          · exact absurd h2 hc
          · exact Or.inr ⟨so2, hso2', h2, h3⟩

theorem mem_expandRels (term : String)
    (rels : List (String × List (String × List String)))
    (acc : List String) (x : String) :
    x ∈ rels.foldl (fun expansions rel =>
        rel.2.foldl (fun expansions so =>
          if pyInStr term (pyLowerStr so.1) ||
              so.2.any (fun o => pyInStr term (pyLowerStr o)) then
            so.2.foldl (fun acc o => listInsert o acc) (listInsert so.1 expansions)
          else expansions) expansions) acc ↔
      x ∈ acc ∨ ∃ rel ∈ rels, ∃ so ∈ rel.2,
        (pyInStr term (pyLowerStr so.1) ||
          so.2.any (fun o => pyInStr term (pyLowerStr o))) = true ∧
        (x = so.1 ∨ x ∈ so.2) := by
  induction rels generalizing acc with
  | nil => simp
  | cons rel rels ih =>
    rw [List.foldl_cons, ih, mem_expandPairs]
    constructor
    · rintro ((h | ⟨so, hso, h2, h3⟩) | ⟨rel2, hrel2, so, hso, h2, h3⟩)
      · exact Or.inl h
      · exact Or.inr ⟨rel, List.mem_cons_self _ _, so, hso, h2, h3⟩
      · exact Or.inr ⟨rel2, List.mem_cons_of_mem _ hrel2, so, hso, h2, h3⟩
    · rintro (h | ⟨rel2, hrel2, so, hso, h2, h3⟩)
      · exact Or.inl (Or.inl h)
      · rcases List.mem_cons.mp hrel2 with rfl | hrel2'
        · exact Or.inl (Or.inr ⟨so, hso, h2, h3⟩)
        · exact Or.inr ⟨rel2, hrel2', so, hso, h2, h3⟩

/-- C7: a string belongs to the query-time ontology expansion of a raw term
exactly when some relationship pair (subject, objects) has the lower-cased
term as a substring of the lower-cased subject or of some lower-cased object,
and the string is that full subject or one of those objects. -/
theorem C7_expand_query_with_ontology (ontology : Ontology) (term x : String) :
    x ∈ expand_query_with_ontology ontology term ↔
      ∃ rel ∈ ontology.relationships, ∃ so ∈ rel.2,
        (pyInStr (pyLowerStr term) (pyLowerStr so.1) = true ∨
          ∃ o ∈ so.2, pyInStr (pyLowerStr term) (pyLowerStr o) = true) ∧
        (x = so.1 ∨ x ∈ so.2) := by
  unfold expand_query_with_ontology
  rw [mem_expandRels]
  simp only [List.not_mem_nil, false_or]
  constructor
  · rintro ⟨rel, hrel, so, hso, h2, h3⟩
    rcases Bool.or_eq_true_iff.mp h2 with h4 | h4
    · exact ⟨rel, hrel, so, hso, Or.inl h4, h3⟩
    · obtain ⟨o, ho, ho2⟩ := List.any_eq_true.mp h4
      exact ⟨rel, hrel, so, hso, Or.inr ⟨o, ho, ho2⟩, h3⟩
  · rintro ⟨rel, hrel, so, hso, h2, h3⟩
    refine ⟨rel, hrel, so, hso, Bool.or_eq_true_iff.mpr ?_, h3⟩
    rcases h2 with h4 | ⟨o, ho, ho2⟩
    · exact Or.inl h4
    · exact Or.inr (List.any_eq_true.mpr ⟨o, ho, ho2⟩)

/-! ## C6: numeric parsing during the index build -/

theorem alistSet_append_of_fresh {κ α : Type _} [BEq κ] [LawfulBEq κ] (k : κ) (v : α)
    (l : List (κ × α)) (h : ∀ p ∈ l, p.1 ≠ k) : alistSet k v l = l ++ [(k, v)] := by
  induction l with
  | nil => rfl
  | cons p rest ih =>
    obtain ⟨k', v'⟩ := p
    have hb : (k' == k) = false :=
      beq_eq_false_iff_ne.mpr (h (k', v') (List.mem_cons_self _ _))
    simp only [alistSet, hb, Bool.false_eq_true, if_false, List.cons_append,
      List.cons.injEq, true_and]
    exact ih fun q hq => h q (List.mem_cons_of_mem _ hq)

theorem numFieldStep_frame (doc_id : Int) (r : Record) (g : String)
    (num : List (String × List (Int × PyFloat))) (f : String) (hfg : f ≠ g) :
    (numFieldStep doc_id r num g).lookup f = num.lookup f := by
  unfold numFieldStep
  split
  · rfl
  · split
    · rfl
    · split
      · rfl
      · exact lookup_alistModify_ne _ _ _ _ hfg

theorem numFieldStep_self (doc_id : Int) (r : Record) (f : String)
    (num : List (String × List (Int × PyFloat))) (cur : List (Int × PyFloat))
    (hcur : num.lookup f = some cur) :
    (numFieldStep doc_id r num f).lookup f =
      some (match numExpected f r with
            | none => cur
            | some v => alistSet doc_id v cur) := by
  rcases hq : r.lookup f with _ | s
  · simp only [numFieldStep, numExpected, hq]
    exact hcur
  · rcases hp : pyFloatParse s with _ | v
    · simp only [numFieldStep, numExpected, hq, hp]
      exact hcur
    · rcases hn : v.isNan with _ | _
      · simp only [numFieldStep, numExpected, hq, hp, hn, Bool.false_eq_true, if_false]
        rw [lookup_alistModify_self, hcur]
        rfl
      · simp only [numFieldStep, numExpected, hq, hp, hn, if_true]
        exact hcur

theorem indexNumericRow_lookup (doc_id : Int) (r : Record) (f : String)
    (hf : f ∈ FIELDS_NUMERIC) (num : List (String × List (Int × PyFloat)))
    (cur : List (Int × PyFloat)) (hcur : num.lookup f = some cur) :
    (indexNumericRow doc_id r num).lookup f =
      some (match numExpected f r with
            | none => cur
            | some v => alistSet doc_id v cur) := by
  have hred0 : indexNumericRow doc_id r num =
      numFieldStep doc_id r (numFieldStep doc_id r num "age") "weight" := rfl
  rw [hred0]
  rcases List.mem_cons.mp hf with rfl | hf2
  · rw [numFieldStep_frame _ _ _ _ _ (by decide : ("age" : String) ≠ "weight")]
    exact numFieldStep_self _ _ _ _ _ hcur
  · rcases List.mem_cons.mp hf2 with rfl | hf3
    · exact numFieldStep_self _ _ _ _ _ (by
        rw [numFieldStep_frame _ _ _ _ _ (by decide : ("weight" : String) ≠ "age")]
        exact hcur)
    · cases hf3

theorem build_numeric_fold (f : String) (hf : f ∈ FIELDS_NUMERIC)
    (rows : List Record) (n : ℕ) (st : Index × List (Int × Record))
    (cur : List (Int × PyFloat)) (hcur : st.1.numeric.lookup f = some cur)
    (hkeys : ∀ p ∈ cur, ∃ m : ℕ, p.1 = (m : Int) ∧ m < n) :
    ((List.enumFrom n rows).foldl buildStep st).1.numeric.lookup f =
      some (cur ++ (List.enumFrom n rows).filterMap fun ir =>
        (numExpected f ir.2).map fun v => ((ir.1 : Int), v)) := by
  induction rows generalizing n st cur with
  | nil => simpa using hcur
  | cons r rows ih =>
    rw [List.enumFrom_cons, List.foldl_cons]
    have hstep : (buildStep st (n, r)).1.numeric.lookup f =
        some (match numExpected f r with
              | none => cur
              | some v => alistSet (n : Int) v cur) := by
      show (indexNumericRow (n : Int) r st.1.numeric).lookup f = _
      exact indexNumericRow_lookup _ _ f hf _ _ hcur
    rcases hne : numExpected f r with _ | v
    · simp only [hne] at hstep
      have hrec := ih (n + 1) (buildStep st (n, r)) cur hstep (by
        intro p hp
        obtain ⟨m, hm, hmlt⟩ := hkeys p hp
        exact ⟨m, hm, by omega⟩)
      rw [hrec]
      simp only [List.filterMap_cons, hne, Option.map_none']
    · simp only [hne] at hstep
      have hfresh : ∀ p ∈ cur, p.1 ≠ ((n : ℕ) : Int) := by
        intro p hp
        obtain ⟨m, hm, hmlt⟩ := hkeys p hp
        rw [hm]
        intro hc
        have : m = n := by exact_mod_cast hc
        omega
      rw [alistSet_append_of_fresh _ _ _ hfresh] at hstep
      have hrec := ih (n + 1) (buildStep st (n, r)) (cur ++ [((n : Int), v)]) hstep (by
        intro p hp
        rcases List.mem_append.mp hp with h1 | h1
        · obtain ⟨m, hm, hmlt⟩ := hkeys p h1
          exact ⟨m, hm, by omega⟩
        · simp only [List.mem_singleton] at h1
          subst h1
          exact ⟨n, rfl, by omega⟩)
      rw [hrec]
      simp only [List.filterMap_cons, hne, Option.map_some']
      simp [List.append_assoc]

theorem build_meta_fold (rows : List Record) (n : ℕ) (st : Index × List (Int × Record)) :
    ((List.enumFrom n rows).foldl buildStep st).2 =
      st.2 ++ (List.enumFrom n rows).map fun ir => ((ir.1 : Int), ir.2) := by
  induction rows generalizing n st with
  | nil => simp
  | cons r rows ih =>
    rw [List.enumFrom_cons, List.foldl_cons, ih]
    show (st.2 ++ [((n : Int), r)]) ++ _ = _
    simp [List.append_assoc]

theorem filterMap_enumFrom_lookup_lt (f : String) (rows : List Record) (m j : ℕ)
    (hj : j < m) :
    ((List.enumFrom m rows).filterMap fun ir =>
      (numExpected f ir.2).map fun v => ((ir.1 : Int), v)).lookup ((j : ℕ) : Int) =
      none := by
  induction rows generalizing m with
  | nil => rfl
  | cons r rows ih =>
    rw [List.enumFrom_cons]
    rcases h : numExpected f r with _ | v
    · simp only [List.filterMap_cons, h, Option.map_none']
      exact ih (m + 1) (by omega)
    · simp only [List.filterMap_cons, h, Option.map_some']
      have hb : (((j : ℕ) : Int) == ((m : ℕ) : Int)) = false := by
        rw [beq_eq_false_iff_ne]
        intro hc
        have : j = m := by exact_mod_cast hc
        omega
      simp only [List.lookup, hb]
      exact ih (m + 1) (by omega)

theorem filterMap_enumFrom_lookup (f : String) (rows : List Record) (n i : ℕ)
    (hi : i < rows.length) :
    ((List.enumFrom n rows).filterMap fun ir =>
      (numExpected f ir.2).map fun v => ((ir.1 : Int), v)).lookup (((n + i : ℕ)) : Int) =
      numExpected f rows[i] := by
  induction rows generalizing n i with
  | nil => exact absurd hi (by simp)
  | cons r rows ih =>
    rw [List.enumFrom_cons]
    cases i with
    | zero =>
      rcases h : numExpected f r with _ | v
      · simp only [List.filterMap_cons, h, Option.map_none']
        rw [show ((n + 0 : ℕ) : Int) = ((n : ℕ) : Int) by norm_num]
        rw [filterMap_enumFrom_lookup_lt f rows (n + 1) n (by omega)]
        simpa using h.symm
      · simp only [List.filterMap_cons, h, Option.map_some']
        have hb : (((n + 0 : ℕ) : Int) == ((n : ℕ) : Int)) = true := by
          rw [beq_iff_eq]
          norm_num
        simp only [List.lookup, hb]
        simpa using h.symm
    | succ i' =>
      have hi' : i' < rows.length := by simpa using Nat.lt_of_succ_lt_succ hi
      have hkey : ((n + (i' + 1) : ℕ) : Int) = (((n + 1) + i' : ℕ) : Int) := by
        norm_num
        omega
      rcases h : numExpected f r with _ | v
      · simp only [List.filterMap_cons, h, Option.map_none']
        rw [hkey, ih (n + 1) i' hi']
        simp
      · simp only [List.filterMap_cons, h, Option.map_some']
        have hb : (((n + (i' + 1) : ℕ) : Int) == ((n : ℕ) : Int)) = false := by
          rw [beq_eq_false_iff_ne]
          intro hc
          have : n + (i' + 1) = n := by exact_mod_cast hc
          omega
        simp only [List.lookup, hb]
        rw [hkey, ih (n + 1) i' hi']
        simp

theorem meta_map_lookup (rows : List Record) (n i : ℕ) (hi : i < rows.length) :
    ((List.enumFrom n rows).map fun ir => ((ir.1 : Int), ir.2)).lookup
      (((n + i : ℕ)) : Int) = some rows[i] := by
  induction rows generalizing n i with
  | nil => exact absurd hi (by simp)
  | cons r rows ih =>
    rw [List.enumFrom_cons, List.map_cons]
    cases i with
    | zero =>
      have hb : (((n + 0 : ℕ) : Int) == ((n : ℕ) : Int)) = true := by
        rw [beq_iff_eq]
        norm_num
      simp only [List.lookup, hb]
      rfl
    | succ i' =>
      have hi' : i' < rows.length := by simpa using Nat.lt_of_succ_lt_succ hi
      have hb : (((n + (i' + 1) : ℕ) : Int) == ((n : ℕ) : Int)) = false := by
        rw [beq_eq_false_iff_ne]
        intro hc
        have : n + (i' + 1) = n := by exact_mod_cast hc
        omega
      simp only [List.lookup, hb]
      have hkey : ((n + (i' + 1) : ℕ) : Int) = (((n + 1) + i' : ℕ) : Int) := by
        norm_num
        omega
      rw [hkey, ih (n + 1) i' hi']
      simp

/-- C6: during the build, for every row and every configured numeric field,
the numeric table holds exactly the parsed float value, and holds no entry at
all when the cell is missing, fails to parse, or parses to NaN; and the build
never aborts: every row, the failing ones included, still has its metadata
entry. -/
theorem C6_numeric_build (rows : List Record) (i : ℕ) (f : String)
    (hf : f ∈ FIELDS_NUMERIC) (hi : i < rows.length) :
    (((build_index rows).1.numeric.lookup f).getD []).lookup ((i : ℕ) : Int) =
      numExpected f rows[i] ∧
    (build_index rows).2.2.lookup ((i : ℕ) : Int) = some rows[i] := by
  have hinit : init_index.numeric.lookup f = some [] :=
    lookup_map_key_self FIELDS_NUMERIC (fun _ => ([] : List (Int × PyFloat))) hf
  constructor
  · have hch := build_numeric_fold f hf rows 0 (init_index, []) [] hinit
      (by intro p hp; cases hp)
    have hred : (build_index rows).1.numeric.lookup f =
        ((List.enumFrom 0 rows).foldl buildStep (init_index, [])).1.numeric.lookup f := rfl
    rw [hred, hch]
    simp only [List.nil_append, Option.getD_some]
    have := filterMap_enumFrom_lookup f rows 0 i hi
    rwa [show ((0 + i : ℕ) : Int) = ((i : ℕ) : Int) by norm_num] at this
  · have hred : (build_index rows).2.2 =
        ((List.enumFrom 0 rows).foldl buildStep (init_index, [])).2 := rfl
    rw [hred, build_meta_fold]
    simp only [List.nil_append]
    have := meta_map_lookup rows 0 i hi
    rwa [show ((0 + i : ℕ) : Int) = ((i : ℕ) : Int) by norm_num] at this

/-- Witness instantiating `C6_numeric_build` on a two-row table whose first
row has a parseable age `25.5` and an unparseable weight, evaluated at the
age field of row 0. -/
theorem C6_numeric_build_witness :
    (("age" : String) ∈ FIELDS_NUMERIC ∧ 0 < ([[("age", "25.5"), ("weight", "abc")],
      [("weight", "nan")]] : List Record).length) ∧
    ((((build_index [[("age", "25.5"), ("weight", "abc")], [("weight", "nan")]]).1.numeric.lookup
        "age").getD []).lookup ((0 : ℕ) : Int) =
      numExpected "age" [("age", "25.5"), ("weight", "abc")] ∧
    (build_index [[("age", "25.5"), ("weight", "abc")], [("weight", "nan")]]).2.2.lookup
        ((0 : ℕ) : Int) = some [("age", "25.5"), ("weight", "abc")]) :=
  ⟨⟨by decide, by decide⟩,
    C6_numeric_build [[("age", "25.5"), ("weight", "abc")], [("weight", "nan")]] 0 "age"
      (by decide) (by decide)⟩

/-! ## C9: a missing artifact fails fast at engine construction -/

theorem isPrefixOf_self_append (n post : List Char) : n.isPrefixOf (n ++ post) = true := by
  induction n with
  | nil => exact List.isPrefixOf_nil_left
  | cons c cs ih =>
    show ((c == c) && cs.isPrefixOf (cs ++ post)) = true
    rw [beq_self_eq_true, ih]
    rfl

theorem containsSub_self_append (n post : List Char) :
    containsSub n (n ++ post) = true := by
  cases hn : n ++ post with
  | nil =>
    have h0 : n = [] := (List.append_eq_nil.mp hn).1
    subst h0
    rfl
  | cons c t =>
    show (n.isPrefixOf (c :: t) || containsSub n t) = true
    rw [← hn, isPrefixOf_self_append, Bool.true_or]

theorem containsSub_append_left (n s t : List Char) (h : containsSub n t = true) :
    containsSub n (s ++ t) = true := by
  induction s with
  | nil => simpa using h
  | cons c s ih =>
    show (n.isPrefixOf (c :: (s ++ t)) || containsSub n (s ++ t)) = true
    rw [ih, Bool.or_true]

theorem missingMsg_data (p : String) :
    (missingMsg p).data =
      "Missing required data file: ".data ++ (p.data ++ (". Run ".data ++ (sq.data ++
        ("python build_index.py".data ++ (sq.data ++ " first.".data))))) := by
  simp [missingMsg, String.data_append, List.append_assoc]

theorem missingMsg_names_path (p : String) :
    pyInStr p (missingMsg p) = true := by
  rw [pyInStr, missingMsg_data]
  exact containsSub_append_left _ _ _ (containsSub_self_append _ _)

theorem missingMsg_rebuild_hint (p : String) :
    pyInStr "python build_index.py" (missingMsg p) = true := by
  rw [pyInStr, missingMsg_data]
  refine containsSub_append_left _ _ _ (containsSub_append_left _ _ _
    (containsSub_append_left _ _ _ (containsSub_append_left _ _ _
      (containsSub_self_append _ _))))

/-- C9: if any of the four pickled artifacts (inverted index, IDF table,
document norms, document metadata) is absent at load time, `__init__` stops
with the `FileNotFoundError` of the first missing one; the message names the
missing file and instructs a rebuild via `python build_index.py`, and the
constructor never returns an engine. -/
theorem C9_missing_artifact (index_path idf_path norms_path meta_path : String)
    (ic : Option Index) (fc : Option (List (String × List (String × ℝ))))
    (nc : Option (List (Int × ℝ))) (mc : Option (List (Int × Record)))
    (fa : List (String × String)) (ts : List (String × List String))
    (h : ic = none ∨ fc = none ∨ nc = none ∨ mc = none) :
    ∃ p, ((p = index_path ∧ ic = none) ∨ (p = idf_path ∧ fc = none) ∨
          (p = norms_path ∧ nc = none) ∨ (p = meta_path ∧ mc = none)) ∧
      SearchEngine_init index_path idf_path norms_path meta_path ic fc nc mc fa ts =
        .error (missingMsg p) ∧
      pyInStr p (missingMsg p) = true ∧
      pyInStr "python build_index.py" (missingMsg p) = true ∧
      ∀ eng, SearchEngine_init index_path idf_path norms_path meta_path ic fc nc mc fa ts ≠
        .ok eng := by
  cases ic with
  | none =>
    refine ⟨index_path, Or.inl ⟨rfl, rfl⟩, rfl, missingMsg_names_path _,
      missingMsg_rebuild_hint _, ?_⟩
    intro eng hc
    exact Except.noConfusion hc
  | some iv =>
    cases fc with
    | none =>
      refine ⟨idf_path, Or.inr (Or.inl ⟨rfl, rfl⟩), rfl, missingMsg_names_path _,
        missingMsg_rebuild_hint _, ?_⟩
      intro eng hc
      exact Except.noConfusion hc
    | some fv =>
      cases nc with
      | none =>
        refine ⟨norms_path, Or.inr (Or.inr (Or.inl ⟨rfl, rfl⟩)), rfl,
          missingMsg_names_path _, missingMsg_rebuild_hint _, ?_⟩
        intro eng hc
        exact Except.noConfusion hc
      | some nv =>
        cases mc with
        | none =>
          refine ⟨meta_path, Or.inr (Or.inr (Or.inr ⟨rfl, rfl⟩)), rfl,
            missingMsg_names_path _, missingMsg_rebuild_hint _, ?_⟩
          intro eng hc
          exact Except.noConfusion hc
        | some mv =>
          rcases h with h | h | h | h <;> exact Option.noConfusion h

/-- Witness instantiating `C9_missing_artifact` with the index artifact
absent and the other three present (as empty tables), at the pickle paths of
the repository. -/
theorem C9_missing_artifact_witness :
    ((none : Option Index) = none ∨
      (some ([] : List (String × List (String × ℝ)))) = none ∨
      (some ([] : List (Int × ℝ))) = none ∨ (some ([] : List (Int × Record))) = none) ∧
    ∃ p, ((p = "indexes/index.pkl" ∧ (none : Option Index) = none) ∨
          (p = "indexes/idf.pkl" ∧
            (some ([] : List (String × List (String × ℝ)))) = none) ∨
          (p = "indexes/doc_norms.pkl" ∧ (some ([] : List (Int × ℝ))) = none) ∨
          (p = "indexes/doc_meta.pkl" ∧ (some ([] : List (Int × Record))) = none)) ∧
      SearchEngine_init "indexes/index.pkl" "indexes/idf.pkl" "indexes/doc_norms.pkl"
          "indexes/doc_meta.pkl" none (some []) (some []) (some []) [] [] =
        .error (missingMsg p) ∧
      pyInStr p (missingMsg p) = true ∧
      pyInStr "python build_index.py" (missingMsg p) = true ∧
      ∀ eng, SearchEngine_init "indexes/index.pkl" "indexes/idf.pkl" "indexes/doc_norms.pkl"
          "indexes/doc_meta.pkl" none (some []) (some []) (some []) [] [] ≠ .ok eng :=
  ⟨Or.inl rfl,
    C9_missing_artifact "indexes/index.pkl" "indexes/idf.pkl" "indexes/doc_norms.pkl"
      "indexes/doc_meta.pkl" none (some []) (some []) (some []) [] [] (Or.inl rfl)⟩

/-! ## C3: an entirely empty query vector yields an empty result list -/

theorem scoreTermStep_skip (e : SearchEngine) (f : String) (b : ℝ)
    (acc : List (Int × ℝ) × ℝ) (tc : String × ℕ)
    (h : (textGet e f tc.1).getD [] = [] ∨ (idfGet e f tc.1).getD 0 = 0) :
    scoreTermStep e f b acc tc = acc := by
  simp only [scoreTermStep]
  rw [if_pos h]

theorem scoreField_fold_skip (e : SearchEngine) (f : String) (b : ℝ)
    (tcs : List (String × ℕ)) (acc : List (Int × ℝ) × ℝ)
    (h : ∀ tc ∈ tcs, (textGet e f tc.1).getD [] = [] ∨ (idfGet e f tc.1).getD 0 = 0) :
    tcs.foldl (scoreTermStep e f b) acc = acc := by
  induction tcs generalizing acc with
  | nil => rfl
  | cons tc tcs ih =>
    rw [List.foldl_cons, scoreTermStep_skip e f b acc tc (h tc (List.mem_cons_self tc tcs))]
    exact ih acc fun x hx => h x (List.mem_cons_of_mem tc hx)

theorem computeScores_empty (e : SearchEngine) (comps : QueryComponents)
    (hempty : ∀ ftc ∈ comps.text_terms, ∀ tc ∈ ftc.2,
      (textGet e ftc.1 tc.1).getD [] = [] ∨ (idfGet e ftc.1 tc.1).getD 0 = 0) :
    computeScores e comps = ([], 0) := by
  rw [computeScores]
  refine foldl_inv (fun (acc : List (Int × ℝ) × ℝ) => acc = ([], 0)) _ comps.text_terms
    ([], 0) rfl ?_
  intro acc ftc hftc hacc
  subst hacc
  exact scoreField_fold_skip e ftc.1 _ ftc.2 ([], 0) fun tc htc => hempty ftc hftc tc htc

/-- C3 (universal part): when every parsed text term scores nothing — its
posting dict is empty or missing, or its IDF value is missing or zero — the
query vector is entirely empty: the query norm is zero and `search` returns
an empty result list instead of crashing. -/
theorem C3_empty_query_vector (e : SearchEngine) (q : String) (comps : QueryComponents)
    (tk : ℕ) (bf : Option String) (bs : ℝ)
    (hp : parse_query e q = .ok comps)
    (hempty : ∀ ftc ∈ comps.text_terms, ∀ tc ∈ ftc.2,
      (textGet e ftc.1 tc.1).getD [] = [] ∨ (idfGet e ftc.1 tc.1).getD 0 = 0) :
    queryNorm e comps = 0 ∧ search e q tk bf bs = .ok [] := by
  have hsc := computeScores_empty e comps hempty
  constructor
  · rw [queryNorm, hsc]
    simp
  · rw [search, hp]
    simp only [searchScored, hsc]
    simp

/-- Witness instantiating `C3_empty_query_vector` on the filter-only query
`age:>30` against an engine with an empty index: the parse yields one
numeric filter and no text terms, and the search returns the empty list. -/
theorem C3_empty_query_vector_witness :
    parse_query sampleEngineEmpty "age:>30" =
      .ok { text_terms := [], required_terms := [],
            numeric_filters := [("age", ">", .finite 30)], keyword_filters := [] } ∧
    (queryNorm sampleEngineEmpty
        { text_terms := [], required_terms := [],
          numeric_filters := [("age", ">", .finite 30)], keyword_filters := [] } = 0 ∧
      search sampleEngineEmpty "age:>30" 10 none 0 = .ok []) :=
  ⟨by rfl,
    C3_empty_query_vector sampleEngineEmpty "age:>30"
      { text_terms := [], required_terms := [],
        numeric_filters := [("age", ">", .finite 30)], keyword_filters := [] }
      10 none 0 (by rfl)
      (fun ftc hftc => absurd hftc (List.not_mem_nil ftc))⟩

/-! ## Concrete evaluation of `search` on `sampleEngine` -/

theorem tf_weight_one : tf_weight 1 = 1 := by
  rw [tf_weight, if_pos (by norm_num)]
  norm_num [Real.logb_one]

theorem scoreTermStep_pg (acc : List (Int × ℝ) × ℝ) :
    scoreTermStep sampleEngine "position_clean"
        (((FIELD_BOOSTS.lookup "position_clean").getD 1 : ℚ) : ℝ) acc ("pg", 1) =
      (alistAdd 1
          ((tf_weight 1 * 1 * (((FIELD_BOOSTS.lookup "position_clean").getD 1 : ℚ) : ℝ)) *
            (tf_weight 1 * 1 * (((FIELD_BOOSTS.lookup "position_clean").getD 1 : ℚ) : ℝ)))
          (alistAdd 0
            ((tf_weight 1 * 1 * (((FIELD_BOOSTS.lookup "position_clean").getD 1 : ℚ) : ℝ)) *
              (tf_weight 1 * 1 * (((FIELD_BOOSTS.lookup "position_clean").getD 1 : ℚ) : ℝ)))
            acc.1),
       acc.2 +
         (tf_weight 1 * 1 * (((FIELD_BOOSTS.lookup "position_clean").getD 1 : ℚ) : ℝ)) *
           (tf_weight 1 * 1 * (((FIELD_BOOSTS.lookup "position_clean").getD 1 : ℚ) : ℝ))) := by
  simp only [scoreTermStep]
  rw [if_neg]
  · rfl
  · intro hor
    rcases hor with h | h
    · exact absurd h (by decide)
    · exact one_ne_zero h

theorem computeScores_sample :
    computeScores sampleEngine sampleComponents =
      ([(0, (tf_weight 1 * 1 * (((FIELD_BOOSTS.lookup "position_clean").getD 1 : ℚ) : ℝ)) *
            (tf_weight 1 * 1 * (((FIELD_BOOSTS.lookup "position_clean").getD 1 : ℚ) : ℝ))),
        (1, (tf_weight 1 * 1 * (((FIELD_BOOSTS.lookup "position_clean").getD 1 : ℚ) : ℝ)) *
            (tf_weight 1 * 1 * (((FIELD_BOOSTS.lookup "position_clean").getD 1 : ℚ) : ℝ)))],
       0 + (tf_weight 1 * 1 * (((FIELD_BOOSTS.lookup "position_clean").getD 1 : ℚ) : ℝ)) *
            (tf_weight 1 * 1 * (((FIELD_BOOSTS.lookup "position_clean").getD 1 : ℚ) : ℝ))) := by
  rw [computeScores]
  rw [show sampleComponents.text_terms =
    [("player_name", [("position", 1), ("pg", 1)]),
     ("position_clean", [("position", 1), ("pg", 1)]),
     ("draft", [("position", 1), ("pg", 1)]),
     ("birth_city", [("position", 1), ("pg", 1)]),
     ("birth_country", [("position", 1), ("pg", 1)]),
     ("transactions_list", [("position", 1), ("pg", 1)]),
     ("college", [("position", 1), ("pg", 1)]),
     ("high_school", [("position", 1), ("pg", 1)])] from rfl]
  simp only [List.foldl_cons, List.foldl_nil]
  have hsk : ∀ (f : String) (b : ℝ) (acc : List (Int × ℝ) × ℝ) (tc : String × ℕ),
      (textGet sampleEngine f tc.1).getD [] = [] →
      scoreTermStep sampleEngine f b acc tc = acc :=
    fun f b acc tc h => scoreTermStep_skip sampleEngine f b acc tc (Or.inl h)
  rw [hsk "player_name" _ _ ("position", 1) rfl,
    hsk "player_name" _ _ ("pg", 1) rfl,
    hsk "position_clean" _ _ ("position", 1) rfl,
    scoreTermStep_pg,
    hsk "draft" _ _ ("position", 1) rfl, hsk "draft" _ _ ("pg", 1) rfl,
    hsk "birth_city" _ _ ("position", 1) rfl, hsk "birth_city" _ _ ("pg", 1) rfl,
    hsk "birth_country" _ _ ("position", 1) rfl, hsk "birth_country" _ _ ("pg", 1) rfl,
    hsk "transactions_list" _ _ ("position", 1) rfl,
    hsk "transactions_list" _ _ ("pg", 1) rfl,
    hsk "college" _ _ ("position", 1) rfl, hsk "college" _ _ ("pg", 1) rfl,
    hsk "high_school" _ _ ("position", 1) rfl, hsk "high_school" _ _ ("pg", 1) rfl]
  rfl

theorem sample_weight_eq_four :
    (tf_weight 1 * 1 * (((FIELD_BOOSTS.lookup "position_clean").getD 1 : ℚ) : ℝ)) *
      (tf_weight 1 * 1 * (((FIELD_BOOSTS.lookup "position_clean").getD 1 : ℚ) : ℝ)) = 4 := by
  rw [tf_weight_one, show FIELD_BOOSTS.lookup "position_clean" = some 2 from rfl]
  norm_num

theorem computeScores_sample_val :
    computeScores sampleEngine sampleComponents = ([(0, 4), (1, 4)], 4) := by
  rw [computeScores_sample, sample_weight_eq_four]
  norm_num

theorem queryNorm_sample : queryNorm sampleEngine sampleComponents = 2 := by
  rw [queryNorm, computeScores_sample_val]
  show (if (4 : ℝ) ≠ 0 then Real.sqrt 4 else 0) = 2
  rw [if_pos (by norm_num : (4 : ℝ) ≠ 0), show (4 : ℝ) = 2 ^ 2 by norm_num,
    Real.sqrt_sq (by norm_num : (0 : ℝ) ≤ 2)]

theorem scoreEntry_none_of_fails (e : SearchEngine) (comps : QueryComponents)
    (qn : ℝ) (bf : Option String) (bs : ℝ) (ds : Int × ℝ)
    (h : _passes_filters e ds.1 comps = false) :
    scoreEntry e comps qn bf bs ds = none := by
  simp only [scoreEntry]
  rw [if_neg (by simp [h])]

theorem scoreEntry_hit (e : SearchEngine) (comps : QueryComponents) (qn : ℝ)
    (bs : ℝ) (ds : Int × ℝ) (dn : ℝ)
    (hp : _passes_filters e ds.1 comps = true)
    (hdn : (e.doc_norms.lookup ds.1).getD 0 = dn) (hdn0 : dn ≠ 0) :
    scoreEntry e comps qn none bs ds =
      some { doc_id := ds.1, tf_idf_score := ds.2, cosine_score := ds.2 / (dn * qn) } := by
  simp only [scoreEntry]
  rw [if_pos hp, hdn, if_neg hdn0,
    if_neg (by simp : ¬(Option.getD (none : Option String) "" ≠ ""))]

theorem search_sample_eval :
    search sampleEngine "age:>30 position:pg" 10 none 0 =
      .ok [{ doc_id := 0, tf_idf_score := 4, cosine_score := 2 }] := by
  have hparse : parse_query sampleEngine "age:>30 position:pg" = .ok sampleComponents := by
    rfl
  rw [search, hparse]
  show Except.ok (searchScored sampleEngine sampleComponents 10 none 0) = _
  simp only [searchScored, computeScores_sample_val, queryNorm_sample]
  rw [if_neg (by simp : ¬(([((0 : Int), (4 : ℝ)), (1, 4)], (4 : ℝ)).1 = [])),
    if_neg (by norm_num : ¬((2 : ℝ) = 0))]
  have hf0 : scoreEntry sampleEngine sampleComponents 2 none 0 ((0 : Int), (4 : ℝ)) =
      some { doc_id := 0, tf_idf_score := 4, cosine_score := 2 } := by
    rw [scoreEntry_hit sampleEngine sampleComponents 2 0 ((0 : Int), (4 : ℝ)) 1
      (by decide) rfl one_ne_zero]
    norm_num
  have hf1 : scoreEntry sampleEngine sampleComponents 2 none 0 ((1 : Int), (4 : ℝ)) =
      none :=
    scoreEntry_none_of_fails sampleEngine sampleComponents 2 none 0 ((1 : Int), (4 : ℝ))
      (by decide)
  simp only [List.filterMap_cons, hf0, hf1, List.filterMap_nil]
  rw [List.mergeSort_singleton]
  rfl

/-- C3 counterexample: against a built engine holding two `pg` players (ages
35 and 25), the spec's example query `age:>30 position:pg` does NOT return
an empty list: `position` resolves to no configured field, so `position:pg`
is treated as free text, scores both players, and the age filter leaves one
scored candidate. -/
theorem C3_counterexample :
    search sampleEngine "age:>30 position:pg" 10 none 0 ≠ .ok ([] : List SearchResult) := by
  rw [search_sample_eval]
  intro hc
  have := Except.ok.inj hc
  exact absurd this (by simp)

/-! ## C4 and C10: every returned result passed the filters and the
nonzero-norm gates -/

theorem mem_searchScored (e : SearchEngine) (comps : QueryComponents) (tk : ℕ)
    (bf : Option String) (bs : ℝ) (r : SearchResult)
    (hr : r ∈ searchScored e comps tk bf bs) :
    _passes_filters e r.doc_id comps = true ∧
      (e.doc_norms.lookup r.doc_id).getD 0 ≠ 0 ∧ queryNorm e comps ≠ 0 := by
  simp only [searchScored] at hr
  by_cases h1 : (computeScores e comps).1 = []
  · rw [if_pos h1] at hr
    exact absurd hr (List.not_mem_nil r)
  · rw [if_neg h1] at hr
    by_cases h2 : queryNorm e comps = 0
    · rw [if_pos h2] at hr
      exact absurd hr (List.not_mem_nil r)
    · rw [if_neg h2] at hr
      have hr2 := List.mem_mergeSort.mp (List.mem_of_mem_take hr)
      obtain ⟨ds, hds, hsome⟩ := List.mem_filterMap.mp hr2
      by_cases hp : _passes_filters e ds.1 comps = true
      · simp only [scoreEntry] at hsome
        rw [if_pos hp] at hsome
        by_cases hz : (e.doc_norms.lookup ds.1).getD 0 = 0
        · rw [if_pos hz] at hsome
          exact Option.noConfusion hsome
        · rw [if_neg hz] at hsome
          have h3 := Option.some.inj hsome
          rw [← h3]
          exact ⟨hp, hz, h2⟩
      · rw [scoreEntry_none_of_fails e comps (queryNorm e comps) bf bs ds
          (Bool.not_eq_true _ ▸ Bool.of_not_eq_true hp)] at hsome
        exact Option.noConfusion hsome

theorem not_pyLt_of_pyLe (a b : PyFloat) (h : pyLe a b = true) : pyLt b a = false := by
  cases a <;> cases b <;> simp_all [pyLe, pyLt]

/-- C4: a parsed numeric filter `(f, >, v)` excludes from the search results
every document whose recorded value for `f` is `<= v` (IEEE comparison) and
every document with no recorded value for `f` at all. -/
theorem C4_numeric_filter (e : SearchEngine) (comps : QueryComponents) (tk : ℕ)
    (bf : Option String) (bs : ℝ) (f : String) (v : PyFloat) (d : Int)
    (hf : (f, ">", v) ∈ comps.numeric_filters)
    (hd : ((e.index.numeric.lookup f).getD []).lookup d = none ∨
          ∃ dv, ((e.index.numeric.lookup f).getD []).lookup d = some dv ∧
            pyLe dv v = true) :
    ∀ r ∈ searchScored e comps tk bf bs, r.doc_id ≠ d := by
  intro r hr hrd
  obtain ⟨hp, _, _⟩ := mem_searchScored e comps tk bf bs r hr
  rw [hrd] at hp
  simp only [_passes_filters, Bool.and_eq_true_iff] at hp
  have hnum := List.all_eq_true.mp hp.1.1 (f, ">", v) hf
  have hnum2 : (match ((e.index.numeric.lookup f).getD []).lookup d with
      | none => false
      | some doc_value => pyLt v doc_value) = true := hnum
  rcases hd with h | ⟨dv, h, hle⟩
  · rw [h] at hnum2
    simp at hnum2
  · rw [h] at hnum2
    have hlt : pyLt v dv = true := hnum2
    rw [not_pyLt_of_pyLe dv v hle] at hlt
    exact Bool.noConfusion hlt

/-- Witness instantiating `C4_numeric_filter` on `sampleEngine` and the
parsed query `age:>30 position:pg`: document 1 has recorded age 25 <= 30 and
never appears among the results. -/
theorem C4_numeric_filter_witness :
    ((("age", ">", PyFloat.finite 30) ∈ sampleComponents.numeric_filters) ∧
      (((sampleEngine.index.numeric.lookup "age").getD []).lookup 1 = none ∨
        ∃ dv, ((sampleEngine.index.numeric.lookup "age").getD []).lookup 1 = some dv ∧
          pyLe dv (PyFloat.finite 30) = true)) ∧
    ∀ r ∈ searchScored sampleEngine sampleComponents 10 none 0, r.doc_id ≠ 1 :=
  ⟨⟨by decide, Or.inr ⟨PyFloat.finite 25, by decide, by decide⟩⟩,
    C4_numeric_filter sampleEngine sampleComponents 10 none 0 "age" (PyFloat.finite 30) 1
      (by decide) (Or.inr ⟨PyFloat.finite 25, by decide, by decide⟩)⟩

/-- C10: the cosine division of `search` never divides by zero: a zero query
norm returns early with no results, and every returned result's document has
a present, nonzero norm entry, so `doc_norm * query_norm` is nonzero at
every division actually performed. -/
theorem C10_no_div_by_zero (e : SearchEngine) (comps : QueryComponents) (tk : ℕ)
    (bf : Option String) (bs : ℝ) :
    (queryNorm e comps = 0 → searchScored e comps tk bf bs = []) ∧
    ∀ r ∈ searchScored e comps tk bf bs,
      ∃ dn, e.doc_norms.lookup r.doc_id = some dn ∧ dn ≠ 0 ∧ queryNorm e comps ≠ 0 ∧
        dn * queryNorm e comps ≠ 0 := by
  constructor
  · intro hq
    simp only [searchScored]
    by_cases h1 : (computeScores e comps).1 = []
    · rw [if_pos h1]
    · rw [if_neg h1, if_pos hq]
  · intro r hr
    obtain ⟨_, hz, hq⟩ := mem_searchScored e comps tk bf bs r hr
    rcases hlk : e.doc_norms.lookup r.doc_id with _ | dn
    · rw [hlk] at hz
      exact absurd rfl hz
    · rw [hlk] at hz
      have hdn : dn ≠ 0 := hz
      exact ⟨dn, rfl, hdn, hq, mul_ne_zero hdn hq⟩

/-- Witness instantiating `C10_no_div_by_zero` on `sampleEngine` and the
parsed query `age:>30 position:pg`. -/
theorem C10_no_div_by_zero_witness :
    (queryNorm sampleEngine sampleComponents = 0 →
      searchScored sampleEngine sampleComponents 10 none 0 = []) ∧
    ∀ r ∈ searchScored sampleEngine sampleComponents 10 none 0,
      ∃ dn, sampleEngine.doc_norms.lookup r.doc_id = some dn ∧ dn ≠ 0 ∧
        queryNorm sampleEngine sampleComponents ≠ 0 ∧
        dn * queryNorm sampleEngine sampleComponents ≠ 0 :=
  C10_no_div_by_zero sampleEngine sampleComponents 10 none 0

end KD

